import Mathlib

/-- Python exception taxonomy used by the embedded code
(`ValueError`, `TypeError`, `RuntimeError` for the header signature,
`KeyError`, `ZeroDivisionError`, index errors). -/
inductive PyErr where
  | invalidValue
  | typeMismatch
  | indexOutOfBounds
  | invalidArgument
  | divisionByZero
  | notAHeader
  | keyError
  deriving DecidableEq, Repr

deriving instance DecidableEq for Except

/-- The alphabet of `Hex.__init__`'s validation string
`"0123456789abcdefABCDEF"`. -/
def hexAlphabet : List Char :=
  ['0', '1', '2', '3', '4', '5', '6', '7'] ++
  ['8', '9', 'a', 'b', 'c', 'd', 'e', 'f'] ++
  ['A', 'B', 'C', 'D', 'E', 'F']

/-- Uppercase hex digits `[0-9A-F]` (the canonical stored alphabet). -/
def upperHexAlphabet : List Char :=
  ['0', '1', '2', '3', '4', '5', '6', '7', '8', '9',
   'A', 'B', 'C', 'D', 'E', 'F']

/-- The check `c in "0123456789abcdefABCDEF"` from `Hex.__init__`. -/
def isHexDigitB (c : Char) : Bool := hexAlphabet.contains c

/-- Membership in `[0-9A-F]`. -/
def isUpperHexDigitB (c : Char) : Bool := upperHexAlphabet.contains c

/-- The ASCII lowercase letters. -/
def lowerLetters : List Char :=
  ['a', 'b', 'c', 'd', 'e', 'f', 'g', 'h', 'i', 'j', 'k', 'l', 'm',
   'n', 'o', 'p', 'q', 'r', 's', 't', 'u', 'v', 'w', 'x', 'y', 'z']

/-- The ASCII uppercase letters. -/
def upperLetters : List Char :=
  ['A', 'B', 'C', 'D', 'E', 'F', 'G', 'H', 'I', 'J', 'K', 'L', 'M',
   'N', 'O', 'P', 'Q', 'R', 'S', 'T', 'U', 'V', 'W', 'X', 'Y', 'Z']

/-- Python `str.upper()` restricted to ASCII letters (all the constructor's
hex validation can accept); other characters are left unchanged, which gives
the same accept/reject behaviour as Python on every input. -/
def pyUpper (c : Char) : Char :=
  ((lowerLetters.zip upperLetters).find? (fun p => p.1 == c)).elim c Prod.snd

/-- Value of a single hex digit, as read by Python's `int(c, 16)`.
Callers guard validity; the default is never reached on valid digits. -/
def hexVal (c : Char) : Nat :=
  if c = '0' then 0 else if c = '1' then 1 else if c = '2' then 2
  else if c = '3' then 3 else if c = '4' then 4 else if c = '5' then 5
  else if c = '6' then 6 else if c = '7' then 7 else if c = '8' then 8
  else if c = '9' then 9 else if c = 'A' ∨ c = 'a' then 10
  else if c = 'B' ∨ c = 'b' then 11 else if c = 'C' ∨ c = 'c' then 12
  else if c = 'D' ∨ c = 'd' then 13 else if c = 'E' ∨ c = 'e' then 14
  else if c = 'F' ∨ c = 'f' then 15 else 0

/-- `int(s, 16)` on a pure digit string. -/
def fromHexNat (l : List Char) : Nat :=
  l.foldl (fun a c => 16 * a + hexVal c) 0

/-- The sixteen lowercase hex digits in order, as used by Python's
`hex()`. -/
def lowerHexDigitsList : List Char :=
  ['0', '1', '2', '3', '4', '5', '6', '7'] ++
  ['8', '9', 'a', 'b', 'c', 'd', 'e', 'f']

/-- The lowercase hex digit character for `d < 16`, as produced by Python's
`hex()` (all call sites pass `d < 16`; the fallback is arbitrary). -/
def hexCharL (d : Nat) : Char := lowerHexDigitsList.getD d 'f'

/-- Structural worker for `toHexLower`: `fuel` bounds the recursion depth
(`n + 1` always suffices), keeping the definition kernel-computable. -/
def toHexAux (fuel n : Nat) : List Char :=
  match fuel with
  | 0 => []
  | f + 1 =>
      if n < 16 then [hexCharL n]
      else toHexAux f (n / 16) ++ [hexCharL (n % 16)]

/-- The digit part of Python's `hex(n)` (lowercase, minimal, `"0"` for 0). -/
def toHexLower (n : Nat) : List Char := toHexAux (n + 1) n

/-- Python `str.zfill`-style left padding with `'0'` to length `k`
(the argument never carries a sign at the call sites embedded here). -/
def zfill (k : Nat) (l : List Char) : List Char :=
  List.replicate (k - l.length) '0' ++ l

/-- All characters equal `'0'` — the `all(c == "0" for c in ...)` test. -/
def allZeroB (l : List Char) : Bool := l.all (· = '0')

/-- Python `str.rstrip()` (trailing whitespace removed). -/
def rstripWs (l : List Char) : List Char :=
  (l.reverse.dropWhile Char.isWhitespace).reverse

/-- Python `str.strip()` (whitespace removed from both ends). -/
def pyStrip (l : List Char) : List Char :=
  rstripWs (l.dropWhile Char.isWhitespace)

/-- Index adjustment used by Python slices and by `str.find`'s
start/end arguments: negative indices count from the end, and the result is
clamped to `[0, len]`. -/
def pyAdjust (len : Nat) (i : Int) : Nat :=
  if i < 0 then (len + i).toNat else min i.toNat len

/-- Python slice `l[a:b]` where `none` stands for an omitted bound. -/
def pySlice (l : List Char) (a b : Option Int) : List Char :=
  let a2 := match a with | none => 0 | some i => pyAdjust l.length i
  let b2 := match b with | none => l.length | some i => pyAdjust l.length i
  (l.drop a2).take (b2 - a2)

structure Hex where
  val : List Char
  deriving DecidableEq, Repr

/-- The normalization pipeline of `Hex.__init__` on a string, in source
order: remove whitespace (`"".join(value.split())`), uppercase, remove a
leading `-` (`removeprefix`, recording the sign), remove a leading `0X`.
Returns the sign flag and the residual digit string. -/
def hexNorm (s : List Char) : Bool × List Char :=
  let s2 := (s.filter (fun c => !c.isWhitespace)).map pyUpper
  let neg : Bool := decide (s2.head? = some '-')
  let s3 := if neg then s2.tail else s2
  (neg, if s3.take 2 = ['0', 'X'] then s3.drop 2 else s3)

/-- `Hex.__init__` on a string argument: normalize, validate that the
residue is hex (`none` models the raised `ValueError`), and re-attach the
sign unless the digit string is all zeros. -/
def mkHexStr (s : List Char) : Option Hex :=
  let p := hexNorm s
  if p.2.all isHexDigitB then
    if allZeroB p.2 then some ⟨p.2⟩
    else some ⟨if p.1 then '-' :: p.2 else p.2⟩
  else none

/-- `Hex.__init__` on an `int` argument: Python renders `hex(|n|)` with a
sign (`"-" + hex(-value)` for negatives) and feeds it through the same
pipeline; after normalization that leaves the uppercased minimal digits of
`|n|`, signed iff `n < 0` (the all-zero digit string, reached only at
`n = 0`, drops the sign). -/
def hexOfInt (n : Int) : Hex :=
  let ds := (toHexLower n.natAbs).map pyUpper
  if allZeroB ds then ⟨ds⟩ else if n < 0 then ⟨'-' :: ds⟩ else ⟨ds⟩

namespace Hex

/-- The digit string without the sign (`self.__value.removeprefix("-")`). -/
def udigits (h : Hex) : List Char :=
  if h.val.head? = some '-' then h.val.tail else h.val

/-- Whether the stored value carries the `'-'` sign
(`self.__value.startswith("-")`). -/
def isNegB (h : Hex) : Bool :=
  decide (h.val.head? = some '-')

/-- `Hex.to_str()`: the stored string, verbatim. -/
def toStr (h : Hex) : List Char := h.val

/-- The numeric value `int(self.__value, 16)`, assuming the stored string
parses (callers that can see unparsable strings go through `toIntE`). -/
def toIntRaw (h : Hex) : Int :=
  if h.isNegB then -(fromHexNat h.udigits : Int) else (fromHexNat h.udigits : Int)

/-- `Hex.to_int()`: `int(self.__value, 16)`, raising `ValueError` when the
digit string is empty or contains a non-hex character. -/
def toIntE (h : Hex) : Except PyErr Int :=
  if h.udigits ≠ [] ∧ h.udigits.all isHexDigitB then .ok h.toIntRaw
  else .error .invalidValue

/-- `Hex.bit_len()`: `len(self.unsigned().to_str()) * 4` (the constructor
re-run by `unsigned()` is the identity on well-formed values). -/
def bitLen (h : Hex) : Nat := 4 * h.udigits.length

/-- `Hex.bit_len_no_pad()`: `self.to_int().bit_length()`. -/
def bitLenNoPad (h : Hex) : Nat := Nat.size h.toIntRaw.natAbs

end Hex

/-- Invariant of the stored value, as `Hex.__init__` establishes it:
uppercase hex digits, with a sign only ahead of a nonzero, nonempty digit
string (decidable, for concrete witnesses). -/
def hexWFB (h : Hex) : Bool :=
  if h.val.head? = some '-' then
    !h.val.tail.isEmpty && h.val.tail.all isUpperHexDigitB &&
      !allZeroB h.val.tail
  else h.val.all isUpperHexDigitB

namespace Hex

/-- `Hex.sign()`: `"-"` or `""`. -/
def signStr (h : Hex) : List Char := if h.isNegB then ['-'] else []

/-- `Hex.unsigned()`: `Hex(self.__value.removeprefix("-"))` — the
constructor re-run is the identity on the digit string of a well-formed
value. -/
def unsigned (h : Hex) : Hex := ⟨h.udigits⟩

/-- Digit computation of `Hex.resize(new_bit_length)`: take the unsigned
numeric value `n`, truncate by AND-ing with `(1 << w) - 1` when `w` is
below the value's `bit_length()`, render with `hex()` and `zfill` to
`-(-w // 4)` digits. -/
def resizeDigits (n w : Nat) : List Char :=
  zfill ((w + 3) / 4)
    ((toHexLower (if w < Nat.size n then n % 2 ^ w else n)).map pyUpper)

/-- `Hex.resize(new_bit_length)` after its argument checks: the constructor
re-run on `sign + zfilled digits` (which uppercases the digits and drops
the sign of an all-zero string). -/
def resize (h : Hex) (w : Nat) : Hex :=
  if allZeroB (resizeDigits (fromHexNat h.udigits) w) then
    ⟨resizeDigits (fromHexNat h.udigits) w⟩
  else if h.isNegB then ⟨'-' :: resizeDigits (fromHexNat h.udigits) w⟩
  else ⟨resizeDigits (fromHexNat h.udigits) w⟩

/-- `Hex.resize` with its argument checks: a negative width raises
`ValueError`, and `self.unsigned().to_int()` raises if the stored digit
string does not parse (e.g. it is empty). -/
def resizeE (h : Hex) (w : Int) : Except PyErr Hex :=
  if w < 0 then .error .invalidArgument
  else (toIntE ⟨h.udigits⟩).map fun _ => h.resize w.toNat

/-- `Hex.concat` (single-`Hex` argument):
`Hex(self.to_str() + other.unsigned().to_str())`; the constructor re-run
keeps the first operand's sign unless the combined digits are all zero. -/
def concat (a b : Hex) : Hex :=
  let ds := a.udigits ++ b.udigits
  if allZeroB ds then ⟨ds⟩ else if a.isNegB then ⟨'-' :: ds⟩ else ⟨ds⟩

/-- `Hex.__get_chunk(chunk, chunk_nibble_length, from_right)`: compute the
window start (negative values possible from the right), fail with
`ValueError` iff `chunk * chunk_nibble_length >= len(digits)` or
`chunk < 0`, else slice `chunk_nibble_length` positions from `start` under
Python slice semantics. -/
def getChunkE (h : Hex) (chunk : Int) (size : Nat) (fromRight : Bool) :
    Except PyErr Hex :=
  let L := h.udigits.length
  let start : Int := if fromRight then (L : Int) - size - chunk * size
    else chunk * size
  if chunk * size ≥ (L : Int) ∨ chunk < 0 then .error .indexOutOfBounds
  else .ok ⟨pySlice h.udigits (some start) (some (start + size))⟩

/-- `Hex.get_nibble`. -/
def getNibble (h : Hex) (i : Int) (fromRight : Bool) : Except PyErr Hex :=
  h.getChunkE i 1 fromRight

/-- `Hex.get_byte`. -/
def getByte (h : Hex) (i : Int) (fromRight : Bool) : Except PyErr Hex :=
  h.getChunkE i 2 fromRight

/-- `Hex.get_half_word`. -/
def getHalfWord (h : Hex) (i : Int) (fromRight : Bool) : Except PyErr Hex :=
  h.getChunkE i 4 fromRight

/-- `Hex.get_word`. -/
def getWord (h : Hex) (i : Int) (fromRight : Bool) : Except PyErr Hex :=
  h.getChunkE i 8 fromRight

/-- `Hex.get_doubleword`. -/
def getDoubleword (h : Hex) (i : Int) (fromRight : Bool) : Except PyErr Hex :=
  h.getChunkE i 16 fromRight

/-- `Hex.__getitem__` with a slice key: `Hex(digits[a:b])` (the constructor
re-run is the identity on a slice of well-formed digits). -/
def getSlice (h : Hex) (a b : Option Int) : Hex :=
  ⟨pySlice h.udigits a b⟩

/-- The digit string of `turn_on_bit` / `turn_off_bit` after replacing the
digit at `idx` with the hex rendering of `d`:
`hex_part[:index] + new_digit + hex_part[index + 1:]`. -/
def patchDigits (h : Hex) (idx d : Nat) : List Char :=
  h.udigits.take idx ++ [pyUpper (hexCharL d)] ++ h.udigits.drop (idx + 1)

/-- Shared body of `turn_on_bit` / `turn_off_bit` after the `from_right`
adjustment of the bit position `p`: bounds-check, read the digit at
`p // 4` with `int(c, 16)` (`ValueError` on a non-hex character),
transform its value with `f`, and rebuild the string through the
constructor (the new digit is rendered by `hex()` and uppercased; on
well-formed values the other digits are left unchanged). -/
def setBitCore (h : Hex) (p : Int) (f : Nat → Nat → Nat) :
    Except PyErr Hex :=
  if p ≥ (h.udigits.length : Int) * 4 ∨ p < 0 then .error .indexOutOfBounds
  else if isHexDigitB (h.udigits.getD (p.toNat / 4) '0') then
    .ok (if allZeroB (h.patchDigits (p.toNat / 4)
          (f (hexVal (h.udigits.getD (p.toNat / 4) '0'))
            (1 <<< (3 - p.toNat % 4)))) then
        ⟨h.patchDigits (p.toNat / 4)
          (f (hexVal (h.udigits.getD (p.toNat / 4) '0'))
            (1 <<< (3 - p.toNat % 4)))⟩
      else if h.isNegB then
        ⟨'-' :: h.patchDigits (p.toNat / 4)
          (f (hexVal (h.udigits.getD (p.toNat / 4) '0'))
            (1 <<< (3 - p.toNat % 4)))⟩
      else
        ⟨h.patchDigits (p.toNat / 4)
          (f (hexVal (h.udigits.getD (p.toNat / 4) '0'))
            (1 <<< (3 - p.toNat % 4)))⟩)
  else .error .invalidValue

/-- `turn_on_bit` / `turn_off_bit`: the zero-based bit position is flipped
when `from_right` (`bit_length - 1 - bit_position`), then handled by
`setBitCore`. -/
def setBitE (h : Hex) (pos : Int) (fromRight : Bool) (f : Nat → Nat → Nat) :
    Except PyErr Hex :=
  h.setBitCore
    (if fromRight then (h.udigits.length : Int) * 4 - 1 - pos else pos) f

/-- `Hex.turn_on_bit`: new digit value `int(c, 16) | (1 << (3 - p % 4))`. -/
def turnOnBitE (h : Hex) (pos : Int) (fromRight : Bool) : Except PyErr Hex :=
  h.setBitE pos fromRight fun v mask => v ||| mask

/-- `Hex.turn_off_bit`: new digit value `int(c, 16) & ~(1 << (3 - p % 4))`
— for non-negative `v` the and-not `v & ~mask` equals `v - (v & mask)`
(the cleared bits are exactly the shared ones). -/
def turnOffBitE (h : Hex) (pos : Int) (fromRight : Bool) : Except PyErr Hex :=
  h.setBitE pos fromRight fun v mask => v - Nat.land v mask

/-- The re-pad step shared by all arithmetic/logical operators:
`if new.bit_len() < self.bit_len(): new = new.resize(self.bit_len())`. -/
def repadToLeft (a : Hex) (res : Hex) : Hex :=
  if res.bitLen < a.bitLen then res.resize a.bitLen else res

/-- `Hex.__add__` on a `Hex` operand:
`Hex(self.to_int() + other.to_int())`, re-padded to the left operand's
bit length when narrower. -/
def addE (a b : Hex) : Except PyErr Hex := do
  let x ← a.toIntE
  let y ← b.toIntE
  .ok (repadToLeft a (hexOfInt (x + y)))

/-- `Hex.__sub__` on a `Hex` operand. -/
def subE (a b : Hex) : Except PyErr Hex := do
  let x ← a.toIntE
  let y ← b.toIntE
  .ok (repadToLeft a (hexOfInt (x - y)))

/-- `Hex.__mul__` on a `Hex` operand. -/
def mulE (a b : Hex) : Except PyErr Hex := do
  let x ← a.toIntE
  let y ← b.toIntE
  .ok (repadToLeft a (hexOfInt (x * y)))

/-- `Hex.__truediv__` on a `Hex` operand: Python `//` is floor division
and raises `ZeroDivisionError` on a zero divisor. -/
def divE (a b : Hex) : Except PyErr Hex := do
  let x ← a.toIntE
  let y ← b.toIntE
  if y = 0 then .error .divisionByZero
  else .ok (repadToLeft a (hexOfInt (Int.fdiv x y)))

/-- `Hex.__mod__` on a `Hex` operand: Python `%` is floor modulus
(sign follows the divisor) and raises `ZeroDivisionError` on zero. -/
def modE (a b : Hex) : Except PyErr Hex := do
  let x ← a.toIntE
  let y ← b.toIntE
  if y = 0 then .error .divisionByZero
  else .ok (repadToLeft a (hexOfInt (Int.fmod x y)))

/-- `Hex.__or__` on a `Hex` operand (`|` on Python ints is two's-complement
bitwise or, `Int.lor` here). -/
def orE (a b : Hex) : Except PyErr Hex := do
  let x ← a.toIntE
  let y ← b.toIntE
  .ok (repadToLeft a (hexOfInt (Int.lor x y)))

/-- `Hex.__and__` on a `Hex` operand. -/
def andE (a b : Hex) : Except PyErr Hex := do
  let x ← a.toIntE
  let y ← b.toIntE
  .ok (repadToLeft a (hexOfInt (Int.land x y)))

end Hex

/-- A Python value appearing as the right operand of a `Hex` comparison:
a `Hex`, a string, or an integer (the duck-typed `Hex|str|int` surface). -/
inductive PyVal where
  | hexV (h : Hex)
  | strV (s : List Char)
  | intV (n : Int)
  deriving DecidableEq, Repr

/-- `Hex.__eq__`: compares numeric values when the operand is a `Hex`,
returns `False` (without raising) otherwise. -/
def hexEqValE (a : Hex) (x : PyVal) : Except PyErr Bool :=
  match x with
  | .hexV b => do
      let i ← a.toIntE
      let j ← b.toIntE
      .ok (decide (i = j))
  | _ => .ok false

/-- `Hex.__ne__`: `not self.__eq__(other)`. -/
def hexNeValE (a : Hex) (x : PyVal) : Except PyErr Bool :=
  (hexEqValE a x).map fun b => !b

/-- `Hex.__lt__`: raises `TypeError` on a non-`Hex` operand. -/
def hexLtValE (a : Hex) (x : PyVal) : Except PyErr Bool :=
  match x with
  | .hexV b => do
      let i ← a.toIntE
      let j ← b.toIntE
      .ok (decide (i < j))
  | _ => .error .typeMismatch

/-- `Hex.__le__`: raises `TypeError` on a non-`Hex` operand. -/
def hexLeValE (a : Hex) (x : PyVal) : Except PyErr Bool :=
  match x with
  | .hexV b => do
      let i ← a.toIntE
      let j ← b.toIntE
      .ok (decide (i ≤ j))
  | _ => .error .typeMismatch

/-- `Hex.__gt__`: raises `TypeError` on a non-`Hex` operand. -/
def hexGtValE (a : Hex) (x : PyVal) : Except PyErr Bool :=
  match x with
  | .hexV b => do
      let i ← a.toIntE
      let j ← b.toIntE
      .ok (decide (i > j))
  | _ => .error .typeMismatch

/-- `Hex.__ge__`: raises `TypeError` on a non-`Hex` operand. -/
def hexGeValE (a : Hex) (x : PyVal) : Except PyErr Bool :=
  match x with
  | .hexV b => do
      let i ← a.toIntE
      let j ← b.toIntE
      .ok (decide (i ≥ j))
  | _ => .error .typeMismatch

/-- The occurrence predicate of Python's `str.find(sub, start, end)` inside
the adjusted window `[a, b]`: the match must start at or after `a` and end
at or before `b`. -/
def findWindowP (t sub : List Char) (a b : Nat) (i : Nat) : Bool :=
  decide (a ≤ i) && decide (i + sub.length ≤ b) &&
    decide ((t.drop i).take sub.length = sub)

/-- The adjusted upper end of the search window: the text length when the
`end` argument is omitted, else the slice-adjusted index. -/
def stopBound (len : Nat) (stop : Option Int) : Nat :=
  match stop with
  | none => len
  | some e => pyAdjust len e

/-- `Subcmd.find` on the string output: Python `str.find` — the smallest
occurrence index in the window, `-1` if absent (`none` stop = omitted
`end`). -/
def pyFind (t sub : List Char) (start : Int) (stop : Option Int) : Int :=
  match (List.range (t.length + 1)).find?
      (findWindowP t sub (pyAdjust t.length start)
        (stopBound t.length stop)) with
  | some i => (i : Int)
  | none => -1

/-- `Subcmd.rfind` on the string output: Python `str.rfind` — the largest
occurrence index in the same window. -/
def pyRfind (t sub : List Char) (start : Int) (stop : Option Int) : Int :=
  match (List.range (t.length + 1)).reverse.find?
      (findWindowP t sub (pyAdjust t.length start)
        (stopBound t.length stop)) with
  | some i => (i : Int)
  | none => -1

/-- Number of occurrence positions of `sub` in `t` (window-free). -/
def matchCount (t sub : List Char) : Nat :=
  (List.range (t.length + 1)).countP
    (fun i => decide ((t.drop i).take sub.length = sub))

/-- `Subcmd.get_field(label, end_string, separator, start, end)` without
the `to_hex` conversion: forward-find the label (sentinel `None,-1,-1` →
`none` if absent), set the cursor past label and separator, forward-find
the end string from the cursor, and slice. -/
def getField (t label endStr sep : List Char) (start : Int)
    (stop : Option Int) : Option (List Char × Int × Int) :=
  if pyFind t label start stop = -1 then none
  else if pyFind t endStr
      (pyFind t label start stop + label.length + sep.length) stop = -1 then
    none
  else
    some (pySlice t
        (some (pyFind t label start stop + label.length + sep.length))
        (some (pyFind t endStr
          (pyFind t label start stop + label.length + sep.length) stop)),
      pyFind t label start stop + label.length + sep.length,
      pyFind t endStr
        (pyFind t label start stop + label.length + sep.length) stop)

/-- `Subcmd.rget_field`: identical, except the label is located with
`rfind`; the end string is still searched forward from the cursor. -/
def rgetField (t label endStr sep : List Char) (start : Int)
    (stop : Option Int) : Option (List Char × Int × Int) :=
  if pyRfind t label start stop = -1 then none
  else if pyFind t endStr
      (pyRfind t label start stop + label.length + sep.length) stop = -1 then
    none
  else
    some (pySlice t
        (some (pyRfind t label start stop + label.length + sep.length))
        (some (pyFind t endStr
          (pyRfind t label start stop + label.length + sep.length) stop)),
      pyRfind t label start stop + label.length + sep.length,
      pyFind t endStr
        (pyRfind t label start stop + label.length + sep.length) stop)

/-- `Subcmd.get_field` with `to_hex=True`:
`Hex(self[start_index:end_index].strip())`, whose `ValueError` propagates. -/
def getFieldHexE (t label endStr sep : List Char) (start : Int)
    (stop : Option Int) : Except PyErr (Option (Hex × Int × Int)) :=
  match getField t label endStr sep start stop with
  | none => .ok none
  | some (v, s, e) =>
      match mkHexStr (pyStrip v) with
      | none => .error .invalidValue
      | some h => .ok (some (h, s, e))

/-- `Subcmd.rget_field` with `to_hex=True`. -/
def rgetFieldHexE (t label endStr sep : List Char) (start : Int)
    (stop : Option Int) : Except PyErr (Option (Hex × Int × Int)) :=
  match rgetField t label endStr sep start stop with
  | none => .ok none
  | some (v, s, e) =>
      match mkHexStr (pyStrip v) with
      | none => .error .invalidValue
      | some h => .ok (some (h, s, e))

/-- `psw_scrunch(psw)`: reject a negative PSW (`ValueError`); return a
64-bit PSW as is; reject any other width than 128; else turn on bit 12,
OR word 1 with word 3, and concatenate word 0 with that OR result. -/
def pswScrunchE (psw : Hex) : Except PyErr Hex :=
  if psw.signStr = ['-'] then .error .invalidValue
  else if psw.bitLen = 64 then .ok psw
  else if psw.bitLen ≠ 128 then .error .invalidValue
  else do
    let p ← psw.turnOnBitE 12 false
    let w1 ← p.getWord 1 false
    let w3 ← p.getWord 3 false
    let sh ← w1.orE w3
    let w0 ← p.getWord 0 false
    .ok (w0.concat sh)

/-- The ibm1047 (EBCDIC Latin-1/Open Systems) byte-to-Unicode table. -/
def cp1047Codes : List Nat :=
  [0x00, 0x01, 0x02, 0x03, 0x9C, 0x09, 0x86, 0x7F,
   0x97, 0x8D, 0x8E, 0x0B, 0x0C, 0x0D, 0x0E, 0x0F,
   0x10, 0x11, 0x12, 0x13, 0x9D, 0x0A, 0x08, 0x87,
   0x18, 0x19, 0x92, 0x8F, 0x1C, 0x1D, 0x1E, 0x1F,
   0x80, 0x81, 0x82, 0x83, 0x84, 0x85, 0x17, 0x1B,
   0x88, 0x89, 0x8A, 0x8B, 0x8C, 0x05, 0x06, 0x07,
   0x90, 0x91, 0x16, 0x93, 0x94, 0x95, 0x96, 0x04,
   0x98, 0x99, 0x9A, 0x9B, 0x14, 0x15, 0x9E, 0x1A,
   0x20, 0xA0, 0xE2, 0xE4, 0xE0, 0xE1, 0xE3, 0xE5,
   0xE7, 0xF1, 0xA2, 0x2E, 0x3C, 0x28, 0x2B, 0x7C,
   0x26, 0xE9, 0xEA, 0xEB, 0xE8, 0xED, 0xEE, 0xEF,
   0xEC, 0xDF, 0x21, 0x24, 0x2A, 0x29, 0x3B, 0x5E,
   0x2D, 0x2F, 0xC2, 0xC4, 0xC0, 0xC1, 0xC3, 0xC5,
   0xC7, 0xD1, 0xA6, 0x2C, 0x25, 0x5F, 0x3E, 0x3F,
   0xF8, 0xC9, 0xCA, 0xCB, 0xC8, 0xCD, 0xCE, 0xCF,
   0xCC, 0x60, 0x3A, 0x23, 0x40, 0x27, 0x3D, 0x22,
   0xD8, 0x61, 0x62, 0x63, 0x64, 0x65, 0x66, 0x67,
   0x68, 0x69, 0xAB, 0xBB, 0xF0, 0xFD, 0xFE, 0xB1,
   0xB0, 0x6A, 0x6B, 0x6C, 0x6D, 0x6E, 0x6F, 0x70,
   0x71, 0x72, 0xAA, 0xBA, 0xE6, 0xB8, 0xC6, 0xA4,
   0xB5, 0x7E, 0x73, 0x74, 0x75, 0x76, 0x77, 0x78,
   0x79, 0x7A, 0xA1, 0xBF, 0xD0, 0x5B, 0xDE, 0xAE,
   0xAC, 0xA3, 0xA5, 0xB7, 0xA9, 0xA7, 0xB6, 0xBC,
   0xBD, 0xBE, 0xDD, 0xA8, 0xAF, 0x5D, 0xB4, 0xD7,
   0x7B, 0x41, 0x42, 0x43, 0x44, 0x45, 0x46, 0x47,
   0x48, 0x49, 0xAD, 0xF4, 0xF6, 0xF2, 0xF3, 0xF5,
   0x7D, 0x4A, 0x4B, 0x4C, 0x4D, 0x4E, 0x4F, 0x50,
   0x51, 0x52, 0xB9, 0xFB, 0xFC, 0xF9, 0xFA, 0xFF,
   0x5C, 0xF7, 0x53, 0x54, 0x55, 0x56, 0x57, 0x58,
   0x59, 0x5A, 0xB2, 0xD4, 0xD6, 0xD2, 0xD3, 0xD5,
   0x30, 0x31, 0x32, 0x33, 0x34, 0x35, 0x36, 0x37,
   0x38, 0x39, 0xB3, 0xDB, 0xDC, 0xD9, 0xDA, 0x9F]

/-- Decode one byte through the ibm1047 code page. -/
def cp1047 (b : Nat) : Char := Char.ofNat (cp1047Codes.getD (b % 256) 0xFFFD)

/-- Parse consecutive hex-digit pairs into bytes (`bytes.fromhex`; the
caller has already validated hexness and even length). -/
def hexPairsToBytes : List Char → List Nat
  | c1 :: c2 :: rest => (16 * hexVal c1 + hexVal c2) :: hexPairsToBytes rest
  | _ => []

/-- `Hex.to_char_str()` with the default `"ibm1047"` encoding:
`bytes.fromhex(self.to_str())` (any sign, non-hex character or odd length
raises and yields `""` via the `except` clause), decoded byte-by-byte. -/
def Hex.toCharStr (h : Hex) : List Char :=
  if h.val.all isHexDigitB ∧ h.val.length % 2 = 0 then
    (hexPairsToBytes h.val).map cp1047
  else []

/-- `read_hex`'s value for a byte source: `Hex(data.hex())` — the
constructor uppercases the lowercase digit pairs of `bytes.hex()`. -/
def hexOfBytes (bs : List Nat) : Hex :=
  ⟨(bs.map (fun b =>
      [pyUpper (hexCharL (b % 256 / 16)), pyUpper (hexCharL (b % 16))])).flatten⟩

/-- `Hex("C4D9F240C8")` — the `DR2 H` eyecatcher the decoder compares
against. -/
def dr2hSig : Hex := ⟨"C4D9F240C8".toList⟩

/-- `Hex.__ne__` as the decoder uses it: numeric inequality, raising
`ValueError` when either side's digit string does not parse. -/
def hexNeE (a b : Hex) : Except PyErr Bool := do
  let x ← a.toIntE
  let y ← b.toIntE
  .ok (decide (¬ x = y))

/-- `int(s)` on a character slice (optional surrounding whitespace and
sign, then at least one decimal digit; anything else raises
`ValueError`). -/
def pyIntOfChars (l : List Char) : Except PyErr Int :=
  match pyStrip l with
  | '-' :: ds =>
      if ds ≠ [] ∧ ds.all Char.isDigit then
        .ok (-(ds.foldl (fun a c => 10 * a + (c.toNat - 48)) 0 : Nat))
      else .error .invalidValue
  | '+' :: ds =>
      if ds ≠ [] ∧ ds.all Char.isDigit then
        .ok ((ds.foldl (fun a c => 10 * a + (c.toNat - 48)) 0 : Nat))
      else .error .invalidValue
  | ds =>
      if ds ≠ [] ∧ ds.all Char.isDigit then
        .ok ((ds.foldl (fun a c => 10 * a + (c.toNat - 48)) 0 : Nat))
      else .error .invalidValue

/-- The conditional (non-`SAD`) block of the decoded header record:
`home_jobname`, the three ASIDs, the SDWA pair, the allocation count,
and the remote-system pair.  `remote_sysname` is `none` when the
right-trimmed name is empty (the code deletes the key). -/
structure CondRec where
  homeJobname : List Char
  primary : Hex
  secondary : Hex
  home : Hex
  sdwaAsid : Hex
  sdwaAddress : Hex
  blocksAllocated : Int
  remoteSysname : Option (List Char)
  remoteDump : Bool
  deriving DecidableEq, Repr

/-- The decoded header record (`dump_header_data`'s dictionary).
`decTime` holds the truncated store-clock integer from which
`date_local`/`time_local` are rendered (the `strftime` rendering itself
is presentation only and not modelled). -/
structure HeaderRec where
  dumpType : List Char
  sysname : List Char
  decTime : Int
  title : List Char
  originalDumpDsn : List Char
  version : Int
  release : Int
  sdrsn : Hex
  completeDump : Bool
  cond : Option CondRec
  processorSerial : List Char
  processorModel : List Char
  deriving DecidableEq, Repr

/-- Step 1 of the decoder: the dump type from the byte at hex offset 72
(`01`=SAD, `02`=SVCD, `03`=SYSM/TDMP disambiguated by the module name at
char offset 64, `04`=SLIP, anything else not recorded). -/
def dumpTypeOf (t : Int) (charHeader : List Char) : Option (List Char) :=
  if t = 1 then some "SAD".toList
  else if t = 2 then some "SVCD".toList
  else if t = 3 then
    (if (pySlice charHeader (some 64) (some 72)).map pyUpper =
        "IEAVTDMP".toList then some "TDMP".toList
     else some "SYSM".toList)
  else if t = 4 then some "SLIP".toList
  else none

/-- The conditional block builder, given the already-trimmed remote
system name `rname` and the parsed allocation count. -/
def condFields (charHeader : List Char) (hh : Hex) (sysname rname : List Char)
    (blocks : Int) : CondRec :=
  { homeJobname := rstripWs (pySlice charHeader (some 1100) (some 1108)),
    primary := hh.getSlice (some 1000) (some 1004),
    secondary := hh.getSlice (some 1004) (some 1008),
    home := hh.getSlice (some 1008) (some 1012),
    sdwaAsid := hh.getSlice (some 1012) (some 1016),
    sdwaAddress := hh.getSlice (some 1016) (some 1024),
    blocksAllocated := blocks,
    remoteSysname := if rname = [] then none else some rname,
    remoteDump := decide (rname ≠ sysname) }

/-- Steps 8–12 of the decoder: skipped entirely for a `SAD` dump; for the
rest, `blocks_allocated_decimal` comes from `hex_header[480:488].to_int()`
(which can raise) and the remote pair from char offsets 1644–1652. -/
def dumpHeaderCond (charHeader : List Char) (hh : Hex) (sysname t2 : List Char) :
    Except PyErr (Option CondRec) :=
  if t2 ≠ "SAD".toList then
    ((hh.getSlice (some 480) (some 488)).toIntE).map fun blocks =>
      some (condFields charHeader hh sysname
        (rstripWs (pySlice charHeader (some 1644) (some 1652))) blocks)
  else .ok none

/-- The decoder body after the signature check, reading the fixed offset
table against the hex view `hh` and the character view `hh.to_char_str()`
in source order (each `to_int` / `int(...)` can raise; a dump type that
was never recorded raises `KeyError` at the `!= "SAD"` comparison). -/
def dumpHeaderFromHeader (hh : Hex) : Except PyErr HeaderRec := do
  let t ← (hh.getSlice (some 72) (some 74)).toIntE
  let decTime ← ((hh.getSlice (some 144) (some 160)).getSlice
    (some 0) (some 13)).toIntE
  let version ← pyIntOfChars (pySlice hh.toCharStr (some 260) (some 262))
  let release ← pyIntOfChars (pySlice hh.toCharStr (some 262) (some 264))
  match dumpTypeOf t hh.toCharStr with
  | none => .error .keyError
  | some t2 => do
      let cond ← dumpHeaderCond hh.toCharStr hh
        (rstripWs (pySlice hh.toCharStr (some 204) (some 212))) t2
      .ok { dumpType := t2,
            sysname := rstripWs (pySlice hh.toCharStr (some 204) (some 212)),
            decTime := decTime,
            title := rstripWs (pySlice hh.toCharStr (some 88) (some 188)),
            originalDumpDsn :=
              rstripWs (pySlice hh.toCharStr (some 444) (some 488)),
            version := version,
            release := release,
            sdrsn := hh.getSlice (some 448) (some 480),
            completeDump := decide ((hh.getSlice (some 448)
              (some 480)).toStr = List.replicate 32 '0'),
            cond := cond,
            processorSerial := (hh.getSlice (some 162) (some 168)).toStr,
            processorModel := (hh.getSlice (some 168) (some 172)).toStr }

/-- `dump_header_data` on the raw bytes of the first two records:
check the `DR2 H` signature in the first block, retry at hex offset 8320
(the second block), fail with the `RuntimeError` (`NotAHeader`) if both
miss, then decode the offset table. -/
def dumpHeaderData (bs : List Nat) : Except PyErr HeaderRec := do
  let ne1 ← hexNeE ((hexOfBytes bs).getSlice none (some 10)) dr2hSig
  let hh := if ne1 then (hexOfBytes bs).getSlice (some 8320) none
    else hexOfBytes bs
  let ne2 ← hexNeE (hh.getSlice none (some 10)) dr2hSig
  if ne2 then .error .notAHeader
  else dumpHeaderFromHeader hh

/-- A 264-byte SVC-dump source: the `DR2 H` signature, dump-type byte
`02` at offset 36, sysname `SYS1` (EBCDIC, space-padded) at offset 204
and version/release `3100` at offset 260; everything else zero. -/
def svcdDumpBytes : List Nat :=
  [0xC4, 0xD9, 0xF2, 0x40, 0xC8] ++ List.replicate 31 0 ++ [0x02] ++
  List.replicate 167 0 ++ [0xE2, 0xE8, 0xE2, 0xF1] ++ List.replicate 4 0x40 ++
  List.replicate 48 0 ++ [0xF3, 0xF1, 0xF0, 0xF0]

/-- The conditional block `dump_header_data` decodes from
`svcdDumpBytes`: every windowed field is past the 264-byte source, so
the slices are empty; the trimmed remote sysname is empty, its key is
deleted, yet `remote_dump` is `True` (`"" != "SYS1"`). -/
def svcdDumpCond : CondRec :=
  { homeJobname := [], primary := ⟨[]⟩, secondary := ⟨[]⟩, home := ⟨[]⟩,
    sdwaAsid := ⟨[]⟩, sdwaAddress := ⟨[]⟩, blocksAllocated := 0,
    remoteSysname := none, remoteDump := true }

/-- The record `dump_header_data` decodes from `svcdDumpBytes`. -/
def svcdDumpRec : HeaderRec :=
  { dumpType := "SVCD".toList, sysname := "SYS1".toList, decTime := 0,
    title := List.replicate 100 (Char.ofNat 0), originalDumpDsn := [],
    version := 31, release := 0, sdrsn := ⟨List.replicate 32 '0'⟩,
    completeDump := true, cond := some svcdDumpCond,
    processorSerial := List.replicate 6 '0',
    processorModel := List.replicate 4 '0' }

/-- A 264-byte stand-alone-dump source: like `svcdDumpBytes` but with
dump-type byte `01` and no sysname (the sysname window reads as EBCDIC
NULs, which `rstrip()` keeps). -/
def sadDumpBytes : List Nat :=
  [0xC4, 0xD9, 0xF2, 0x40, 0xC8] ++ List.replicate 31 0 ++ [0x01] ++
  List.replicate 223 0 ++ [0xF3, 0xF1, 0xF0, 0xF0]

/-- The record `dump_header_data` decodes from `sadDumpBytes`: every
unconditional field is filled and the conditional block is omitted. -/
def sadDumpRec : HeaderRec :=
  { dumpType := "SAD".toList, sysname := List.replicate 8 (Char.ofNat 0),
    decTime := 0, title := List.replicate 100 (Char.ofNat 0),
    originalDumpDsn := [], version := 31, release := 0,
    sdrsn := ⟨List.replicate 32 '0'⟩, completeDump := true, cond := none,
    processorSerial := List.replicate 6 '0',
    processorModel := List.replicate 4 '0' }

/-! ## Theorems -/

theorem pyUpper_eq_self {c : Char} (h : c ∉ lowerLetters) : pyUpper c = c := by
  have hf : (lowerLetters.zip upperLetters).find? (fun p => p.1 == c) = none := by
    rw [List.find?_eq_none]
    intro p hp
    have h1 := (List.of_mem_zip hp).1
    simp only [beq_iff_eq, Bool.not_eq_true, decide_eq_false_iff_not]
    intro hc
    exact h (hc ▸ h1)
  simp [pyUpper, hf]

theorem pyUpper_hex_upper (c : Char) :
    isHexDigitB (pyUpper c) = true → isUpperHexDigitB (pyUpper c) = true := by
  by_cases hc : c ∈ lowerLetters
  · fin_cases hc <;> decide
  · rw [pyUpper_eq_self hc]
    intro h
    have hmem : c ∈ hexAlphabet := by
      simpa [isHexDigitB] using h
    fin_cases hmem <;> first | decide | (exact absurd (by decide) hc)

theorem upperHex_props : ∀ c ∈ upperHexAlphabet,
    pyUpper c = c ∧ c.isWhitespace = false ∧ c ≠ '-' ∧ c ≠ 'X' ∧
      isHexDigitB c = true := by decide

theorem mem_upperHex {c : Char} (h : isUpperHexDigitB c = true) :
    c ∈ upperHexAlphabet := by
  simpa [isUpperHexDigitB] using h

theorem isUpperHexDigitB_isHexDigitB {c : Char} :
    isUpperHexDigitB c = true → isHexDigitB c = true :=
  fun h => (upperHex_props c (mem_upperHex h)).2.2.2.2

theorem upperHex_not_whitespace {c : Char} (h : isUpperHexDigitB c = true) :
    c.isWhitespace = false :=
  (upperHex_props c (mem_upperHex h)).2.1

theorem upperHex_pyUpper_fixed {c : Char} (h : isUpperHexDigitB c = true) :
    pyUpper c = c :=
  (upperHex_props c (mem_upperHex h)).1

theorem upperHex_ne_dash {c : Char} (h : isUpperHexDigitB c = true) :
    c ≠ '-' :=
  (upperHex_props c (mem_upperHex h)).2.2.1

theorem upperHex_ne_X {c : Char} (h : isUpperHexDigitB c = true) :
    c ≠ 'X' :=
  (upperHex_props c (mem_upperHex h)).2.2.2.1

theorem list_map_id_of {f : Char → Char} {l : List Char}
    (h : ∀ c ∈ l, f c = c) : l.map f = l := by
  induction l with
  | nil => rfl
  | cons a t ih =>
    simp only [List.map_cons, h a (by simp), List.cons.injEq, true_and]
    exact ih fun c hc => h c (by simp [hc])

/-- On a canonical stored string (nonempty uppercase hex digits with a sign
only ahead of a not-all-zero digit string), the constructor is the
identity. -/
theorem hexNorm_canonical (neg : Bool) (ds : List Char)
    (hne : ds ≠ []) (hhex : ds.all isUpperHexDigitB = true) :
    hexNorm ((if neg then ['-'] else []) ++ ds) = (neg, ds) := by
  have hws : ∀ c ∈ ds, (!c.isWhitespace) = true := fun c hc => by
    simp [upperHex_not_whitespace (List.all_eq_true.mp hhex c hc)]
  have hmap : ds.map pyUpper = ds :=
    list_map_id_of fun c hc =>
      upperHex_pyUpper_fixed (List.all_eq_true.mp hhex c hc)
  have hfilter : ds.filter (fun c => !c.isWhitespace) = ds :=
    List.filter_eq_self.mpr hws
  have hhead : ¬ ds.head? = some '-' := by
    rcases ds with _ | ⟨c, l⟩
    · simp
    · have := upperHex_ne_dash
        (List.all_eq_true.mp hhex c (List.mem_cons_self c l))
      simpa using this
  have hnoOX : ¬ ds.take 2 = ['0', 'X'] := by
    rcases ds with _ | ⟨c, _ | ⟨c2, l⟩⟩
    · simp
    · simp
    · have hX := upperHex_ne_X (List.all_eq_true.mp hhex c2
        (List.mem_cons_of_mem c (List.mem_cons_self c2 l)))
      have ht : List.take 2 (c :: c2 :: l) = [c, c2] := rfl
      rw [ht]
      intro hcontra
      simp only [List.cons.injEq, and_true] at hcontra
      exact hX hcontra.2
  cases neg with
  | false =>
    simp only [Bool.false_eq_true, if_false, List.nil_append]
    simp [hexNorm, hfilter, hmap, decide_eq_false hhead, hnoOX]
  | true =>
    simp only [if_true, List.singleton_append]
    have hdash : pyUpper '-' = '-' :=
      pyUpper_eq_self (show '-' ∉ lowerLetters by decide)
    simp [hexNorm, List.filter_cons, hfilter, hmap, hdash, hnoOX]

/-- On a canonical stored string (nonempty uppercase hex digits with a sign
only ahead of a not-all-zero digit string), the constructor is the
identity. -/
theorem mkHexStr_canonical (neg : Bool) (ds : List Char)
    (hne : ds ≠ []) (hhex : ds.all isUpperHexDigitB = true)
    (hz : neg = true → allZeroB ds = false) :
    mkHexStr ((if neg then ['-'] else []) ++ ds) =
      some ⟨(if neg then ['-'] else []) ++ ds⟩ := by
  have hall : ds.all isHexDigitB = true :=
    List.all_eq_true.mpr fun c hc =>
      isUpperHexDigitB_isHexDigitB (List.all_eq_true.mp hhex c hc)
  have hn := hexNorm_canonical neg ds hne hhex
  cases neg with
  | false =>
    simp only [Bool.false_eq_true, if_false, List.nil_append] at hn ⊢
    simp only [mkHexStr, hn, hall, if_true]
    split <;> rfl
  | true =>
    simp only [if_true, List.singleton_append] at hn ⊢
    simp only [mkHexStr, hn, hall, if_true]
    rw [if_neg (by simp [hz rfl])]

/-- C1 (counterexample): `"a"` is a valid hex string, but
`Hex("a").to_str()` is `"A"`, not `"a"` — letter case is not preserved, so
the claimed round-trip `HexValue(s).to_str() == s` fails. -/
theorem hex_roundtrip_lowercase_cex :
    (mkHexStr ['a']).map Hex.toStr ≠ some ['a'] := by decide

/-- C1 (amended): the round-trip holds exactly on canonical strings —
nonempty uppercase hex digits, no `0x` prefix or whitespace, and a leading
`-` only ahead of a not-all-zero digit string.  For such `s`,
`Hex(s).to_str() == s` with sign and leading zeros preserved. -/
theorem hex_roundtrip_canonical (neg : Bool) (ds : List Char)
    (hne : ds ≠ []) (hhex : ds.all isUpperHexDigitB = true)
    (hz : neg = true → allZeroB ds = false) :
    (mkHexStr ((if neg then ['-'] else []) ++ ds)).map Hex.toStr =
      some ((if neg then ['-'] else []) ++ ds) := by
  rw [mkHexStr_canonical neg ds hne hhex hz]
  rfl

/-- C1 witness: the round-trip at the concrete canonical string `"-00A1"`
(sign and leading zeros preserved). -/
theorem hex_roundtrip_canonical_witness :
    (mkHexStr ['-', '0', '0', 'A', '1']).map Hex.toStr =
      some ['-', '0', '0', 'A', '1'] :=
  hex_roundtrip_canonical true ['0', '0', 'A', '1']
    (by decide) (by decide) (fun _ => by decide)

/-- C10: for every `Hex` value `v` and every non-`Hex` right operand `x`
(string or integer, even one equal in numeric value), `v == x` returns
`False` and `v != x` returns `True` without raising, while `<`, `<=`, `>`,
`>=` raise `TypeError`. -/
theorem hex_compare_non_hex (v : Hex) (x : PyVal)
    (hx : ∀ b, x ≠ PyVal.hexV b) :
    hexEqValE v x = .ok false ∧ hexNeValE v x = .ok true ∧
    hexLtValE v x = .error .typeMismatch ∧
    hexLeValE v x = .error .typeMismatch ∧
    hexGtValE v x = .error .typeMismatch ∧
    hexGeValE v x = .error .typeMismatch := by
  cases x with
  | hexV b => exact absurd rfl (hx b)
  | strV s => exact ⟨rfl, rfl, rfl, rfl, rfl, rfl⟩
  | intV n => exact ⟨rfl, rfl, rfl, rfl, rfl, rfl⟩

/-- C10 witness: comparing `Hex("0")` against the string `"0"` (equal in
rendered value but not a `Hex`). -/
theorem hex_compare_non_hex_witness :
    hexEqValE ⟨['0']⟩ (PyVal.strV ['0']) = .ok false ∧
    hexNeValE ⟨['0']⟩ (PyVal.strV ['0']) = .ok true ∧
    hexLtValE ⟨['0']⟩ (PyVal.strV ['0']) = .error .typeMismatch ∧
    hexLeValE ⟨['0']⟩ (PyVal.strV ['0']) = .error .typeMismatch ∧
    hexGtValE ⟨['0']⟩ (PyVal.strV ['0']) = .error .typeMismatch ∧
    hexGeValE ⟨['0']⟩ (PyVal.strV ['0']) = .error .typeMismatch :=
  hex_compare_non_hex ⟨['0']⟩ (PyVal.strV ['0']) (fun _ => nofun)

theorem toHexAux_fuel (n : Nat) : ∀ f, n < f → toHexAux f n = toHexLower n := by
  induction n using Nat.strong_induction_on with
  | _ n ih =>
    intro f hf
    match f, hf with
    | f + 1, _ =>
      show (if n < 16 then _ else _) = toHexLower n
      rw [toHexLower]
      show _ = (if n < 16 then _ else toHexAux n (n / 16) ++ _)
      by_cases h16 : n < 16
      · rw [if_pos h16, if_pos h16]
      · rw [if_neg h16, if_neg h16]
        have hd : n / 16 < n := Nat.div_lt_self (by omega) (by omega)
        rw [ih (n / 16) hd f (by omega), ih (n / 16) hd n hd]

theorem toHexLower_eq (n : Nat) :
    toHexLower n = if n < 16 then [hexCharL n]
      else toHexLower (n / 16) ++ [hexCharL (n % 16)] := by
  rw [toHexLower]
  show (if n < 16 then _ else toHexAux n (n / 16) ++ _) = _
  by_cases h16 : n < 16
  · rw [if_pos h16, if_pos h16]
  · rw [if_neg h16, if_neg h16]
    have hd : n / 16 < n := Nat.div_lt_self (by omega) (by omega)
    rw [toHexAux_fuel (n / 16) n hd]

theorem hexCharL_upper_mem : ∀ d < 16,
    pyUpper (hexCharL d) ∈ upperHexAlphabet := by decide

theorem hexVal_upper_hexCharL : ∀ d < 16,
    hexVal (pyUpper (hexCharL d)) = d := by decide

theorem hexCharL_large (d : Nat) (hd : 16 ≤ d) : hexCharL d = 'f' := by
  rw [hexCharL, List.getD_eq_default]
  simpa [lowerHexDigitsList] using hd

theorem pyUpper_hexCharL_mem (d : Nat) :
    pyUpper (hexCharL d) ∈ upperHexAlphabet := by
  by_cases hd : d < 16
  · exact hexCharL_upper_mem d hd
  · rw [hexCharL_large d (by omega)]
    decide

theorem toHexLower_length_pos (n : Nat) : 1 ≤ (toHexLower n).length := by
  rw [toHexLower_eq]
  split
  · simp
  · simp

theorem toHexLower_lt_pow (n : Nat) : n < 16 ^ (toHexLower n).length := by
  induction n using Nat.strong_induction_on with
  | _ n ih =>
    rw [toHexLower_eq]
    split
    · next h => simpa using h
    · next h =>
      have hdiv := ih (n / 16) (Nat.div_lt_self (by omega) (by omega))
      simp only [List.length_append, List.length_cons, List.length_nil]
      have h16 : 16 ^ ((toHexLower (n / 16)).length + (0 + 1)) =
          16 ^ (toHexLower (n / 16)).length * 16 := by ring
      rw [h16]
      omega

theorem toHexLower_all_upper (n : Nat) :
    ∀ c ∈ (toHexLower n).map pyUpper, isUpperHexDigitB c = true := by
  induction n using Nat.strong_induction_on with
  | _ n ih =>
    rw [toHexLower_eq]
    split
    · intro c hc
      simp only [List.map_cons, List.map_nil, List.mem_singleton] at hc
      subst hc
      simp [isUpperHexDigitB, pyUpper_hexCharL_mem]
    · next h =>
      intro c hc
      simp only [List.map_append, List.map_cons, List.map_nil,
        List.mem_append, List.mem_singleton] at hc
      rcases hc with hc | hc
      · exact ih (n / 16) (Nat.div_lt_self (by omega) (by omega)) c hc
      · subst hc
        simp [isUpperHexDigitB, pyUpper_hexCharL_mem]

theorem fromHexNat_append_singleton (l : List Char) (c : Char) :
    fromHexNat (l ++ [c]) = 16 * fromHexNat l + hexVal c := by
  simp [fromHexNat, List.foldl_append]

theorem fromHexNat_toHexLower (n : Nat) :
    fromHexNat ((toHexLower n).map pyUpper) = n := by
  induction n using Nat.strong_induction_on with
  | _ n ih =>
    rw [toHexLower_eq]
    split
    · next h =>
      have := hexVal_upper_hexCharL n h
      simp [fromHexNat, this]
    · next h =>
      rw [List.map_append, List.map_singleton, fromHexNat_append_singleton]
      rw [ih (n / 16) (Nat.div_lt_self (by omega) (by omega))]
      have := hexVal_upper_hexCharL (n % 16) (Nat.mod_lt n (by omega))
      rw [this]
      omega

theorem size_le_4mul_length (n : Nat) :
    Nat.size n ≤ 4 * (toHexLower n).length := by
  rw [Nat.size_le]
  have := toHexLower_lt_pow n
  calc n < 16 ^ (toHexLower n).length := this
    _ = 2 ^ (4 * (toHexLower n).length) := by
        rw [Nat.pow_mul]

theorem zfill_length (k : Nat) (l : List Char) :
    (zfill k l).length = max k l.length := by
  simp only [zfill, List.length_append, List.length_replicate]
  omega

theorem zfill_all_upper (k : Nat) (l : List Char)
    (h : ∀ c ∈ l, isUpperHexDigitB c = true) :
    ∀ c ∈ zfill k l, isUpperHexDigitB c = true := by
  intro c hc
  simp only [zfill, List.mem_append, List.mem_replicate] at hc
  rcases hc with ⟨_, hc⟩ | hc
  · subst hc; decide
  · exact h c hc

theorem udigits_mk_of_upper (ds : List Char)
    (h : ∀ c ∈ ds, isUpperHexDigitB c = true) :
    Hex.udigits ⟨ds⟩ = ds ∧ Hex.isNegB ⟨ds⟩ = false := by
  rcases ds with _ | ⟨c, l⟩
  · exact ⟨rfl, rfl⟩
  · have hc := upperHex_ne_dash (h c (List.mem_cons_self c l))
    constructor
    · simp [Hex.udigits, hc]
    · simp [Hex.isNegB, hc]

theorem udigits_mk_dash (ds : List Char) :
    Hex.udigits ⟨'-' :: ds⟩ = ds ∧ Hex.isNegB ⟨'-' :: ds⟩ = true := by
  exact ⟨rfl, rfl⟩

theorem hexOfInt_udigits (n : Int) :
    (hexOfInt n).udigits = (toHexLower n.natAbs).map pyUpper := by
  have hupper := toHexLower_all_upper n.natAbs
  simp only [hexOfInt]
  split
  · exact (udigits_mk_of_upper _ hupper).1
  · split
    · exact (udigits_mk_dash _).1
    · exact (udigits_mk_of_upper _ hupper).1

theorem hexOfInt_bitLen (n : Int) :
    (hexOfInt n).bitLen = 4 * (toHexLower n.natAbs).length := by
  rw [Hex.bitLen, hexOfInt_udigits, List.length_map]

theorem resizeDigits_all_upper (n w : Nat) :
    ∀ c ∈ Hex.resizeDigits n w, isUpperHexDigitB c = true := by
  exact zfill_all_upper _ _ (toHexLower_all_upper _)

theorem resize_hexOfInt_bitLen (n : Int) (u : Nat)
    (hlt : (hexOfInt n).bitLen < 4 * u) :
    ((hexOfInt n).resize (4 * u)).bitLen = 4 * u := by
  have hn : fromHexNat (hexOfInt n).udigits = n.natAbs := by
    rw [hexOfInt_udigits, fromHexNat_toHexLower]
  have hsize : ¬ (4 * u < Nat.size n.natAbs) := by
    have h1 := size_le_4mul_length n.natAbs
    have h2 : 4 * (toHexLower n.natAbs).length < 4 * u := by
      rw [hexOfInt_bitLen] at hlt
      omega
    omega
  have hd : Hex.resizeDigits n.natAbs (4 * u) =
      zfill u ((toHexLower n.natAbs).map pyUpper) := by
    rw [Hex.resizeDigits, if_neg hsize]
    congr 1
    omega
  have hlen : (Hex.resizeDigits n.natAbs (4 * u)).length = u := by
    rw [hd, zfill_length, List.length_map]
    rw [hexOfInt_bitLen] at hlt
    omega
  have hupper := resizeDigits_all_upper n.natAbs (4 * u)
  unfold Hex.resize
  rw [hn]
  split
  · rw [Hex.bitLen, (udigits_mk_of_upper _ hupper).1, hlen]
  · split
    · rw [Hex.bitLen, (udigits_mk_dash _).1, hlen]
    · rw [Hex.bitLen, (udigits_mk_of_upper _ hupper).1, hlen]

theorem repad_hexOfInt_bitLen (a : Hex) (n : Int) :
    (a.repadToLeft (hexOfInt n)).bitLen = max a.bitLen (hexOfInt n).bitLen := by
  unfold Hex.repadToLeft
  split
  · next hlt =>
    have h4 : a.bitLen = 4 * a.udigits.length := rfl
    rw [h4] at hlt ⊢
    rw [resize_hexOfInt_bitLen n _ hlt]
    omega
  · next hge =>
    omega

/-- C3: for `Hex` values `a`, `b` whose stored strings parse (as every
constructed value's does), `a + b` and `a - b` return the naive result
`Hex(a.to_int() ± b.to_int())` re-padded to the *left* operand's bit
length; the result's bit length is `max (bit_len a) (bit_len naive)` —
i.e. exactly `bit_len a` unless the naive result already matches or
exceeds it, and never the right operand's width. -/
theorem hex_add_sub_width (a b : Hex) (x y : Int)
    (hx : a.toIntE = .ok x) (hy : b.toIntE = .ok y) :
    a.addE b = .ok (a.repadToLeft (hexOfInt (x + y))) ∧
    (a.repadToLeft (hexOfInt (x + y))).bitLen =
      max a.bitLen (hexOfInt (x + y)).bitLen ∧
    a.subE b = .ok (a.repadToLeft (hexOfInt (x - y))) ∧
    (a.repadToLeft (hexOfInt (x - y))).bitLen =
      max a.bitLen (hexOfInt (x - y)).bitLen := by
  refine ⟨?_, repad_hexOfInt_bitLen a (x + y), ?_, repad_hexOfInt_bitLen a (x - y)⟩
  · unfold Hex.addE
    rw [hx, hy]
    rfl
  · unfold Hex.subE
    rw [hx, hy]
    rfl

/-- C3 witness: `Hex("0005") + Hex("3")` keeps 16 bits (the naive result
`Hex("8")` is 4 bits wide and is re-padded to `"0008"`), and
`Hex("0005") - Hex("3")` likewise. -/
theorem hex_add_sub_width_witness :
    (Hex.mk ['0', '0', '0', '5']).addE ⟨['3']⟩ =
      .ok ((Hex.mk ['0', '0', '0', '5']).repadToLeft (hexOfInt (5 + 3))) ∧
    ((Hex.mk ['0', '0', '0', '5']).repadToLeft (hexOfInt (5 + 3))).bitLen =
      max (Hex.mk ['0', '0', '0', '5']).bitLen (hexOfInt (5 + 3)).bitLen ∧
    (Hex.mk ['0', '0', '0', '5']).subE ⟨['3']⟩ =
      .ok ((Hex.mk ['0', '0', '0', '5']).repadToLeft (hexOfInt (5 - 3))) ∧
    ((Hex.mk ['0', '0', '0', '5']).repadToLeft (hexOfInt (5 - 3))).bitLen =
      max (Hex.mk ['0', '0', '0', '5']).bitLen (hexOfInt (5 - 3)).bitLen :=
  hex_add_sub_width ⟨['0', '0', '0', '5']⟩ ⟨['3']⟩ 5 3 rfl rfl

/-- C4 (counterexample): on the ten-digit value `Hex("0123456789")`,
`get_half_word(2, from_right=True)` computes window start
`10 - 4 - 8 = -2`, which exceeds the digit string on the left; the claim
says this must fail with an index error, but the code's check
`chunk * chunk_size >= len` does not catch it — the call succeeds and
returns an *empty* chunk, not one of exactly 4 digits. -/
theorem hex_chunk_cex :
    (Hex.mk ['0', '1', '2', '3', '4', '5', '6', '7', '8', '9']).getHalfWord
        2 true = .ok ⟨[]⟩ ∧
    (Hex.mk ([] : List Char)).udigits.length ≠ 4 := by
  constructor
  · rfl
  · decide

theorem hexWF_udigits_upper (h : Hex) (hwf : hexWFB h = true) :
    ∀ c ∈ h.udigits, isUpperHexDigitB c = true := by
  by_cases hd : h.val.head? = some '-'
  · rw [hexWFB, if_pos hd] at hwf
    rw [Hex.udigits, if_pos hd]
    simp only [Bool.and_eq_true] at hwf
    exact List.all_eq_true.mp hwf.1.2
  · rw [hexWFB, if_neg hd] at hwf
    rw [Hex.udigits, if_neg hd]
    exact List.all_eq_true.mp hwf

theorem pySlice_mem_subset {l : List Char} {a b : Option Int} {c : Char}
    (hc : c ∈ pySlice l a b) : c ∈ l := by
  simp only [pySlice] at hc
  exact List.mem_of_mem_drop (List.mem_of_mem_take hc)

theorem pySlice_length_nonneg (l : List Char) (a : Int) (k : Nat)
    (h0 : 0 ≤ a) (hk : a.toNat + k ≤ l.length) :
    (pySlice l (some a) (some (a + k))).length = k := by
  simp only [pySlice, pyAdjust]
  rw [if_neg (by omega), if_neg (by omega)]
  simp only [List.length_take, List.length_drop]
  omega

/-- C4 (amended): a chunk getter call fails with `IndexOutOfBounds` iff
`chunk * chunk_size >= len(digits)` or `chunk < 0` (for both values of
`from_right` — the from-right window start is *not* part of the check);
otherwise it returns the Python slice
`digits[start : start + chunk_size]`, which has exactly `chunk_size`
digits in the from-left case whenever the window fits, but can be shorter
or empty (clipped by Python slice semantics) in the from-right case. -/
theorem hex_chunk_amended (h : Hex) (i : Int) (size : Nat) (fr : Bool) :
    (h.getChunkE i size fr = .error .indexOutOfBounds ↔
      (i * size ≥ (h.udigits.length : Int) ∨ i < 0)) ∧
    (¬ (i * size ≥ (h.udigits.length : Int) ∨ i < 0) →
      h.getChunkE i size fr = .ok ⟨pySlice h.udigits
        (some (if fr then (h.udigits.length : Int) - size - i * size
          else i * size))
        (some ((if fr then (h.udigits.length : Int) - size - i * size
          else i * size) + size))⟩) ∧
    (hexWFB h = true → fr = false → 0 < size → 0 ≤ i →
      (i.toNat + 1) * size ≤ h.udigits.length →
      ∀ r, h.getChunkE i size fr = .ok r → r.udigits.length = size) := by
  refine ⟨?_, ?_, ?_⟩
  · simp only [Hex.getChunkE]
    split
    · next hc => simp [hc]
    · next hc => simp [hc]
  · intro hc
    simp only [Hex.getChunkE]
    rw [if_neg hc]
  · intro hwf hfr hsize h0 hin r hr
    subst hfr
    rw [Nat.succ_mul] at hin
    have hixcast : i * (size : Int) = ((i.toNat * size : Nat) : Int) := by
      push_cast
      rw [Int.toNat_of_nonneg h0]
    have hcond : ¬ (i * (size : Int) ≥ (h.udigits.length : Int) ∨ i < 0) := by
      push_neg
      refine ⟨?_, h0⟩
      rw [hixcast]
      have : i.toNat * size < h.udigits.length := by omega
      exact_mod_cast this
    simp only [Hex.getChunkE, Bool.false_eq_true, if_false] at hr
    rw [if_neg hcond] at hr
    injection hr with hr
    have htn : (i * (size : Int)).toNat = i.toNat * size := by
      rw [hixcast, Int.toNat_natCast]
    have hlen : (pySlice h.udigits (some (i * (size : Int)))
        (some (i * (size : Int) + size))).length = size := by
      apply pySlice_length_nonneg
      · positivity
      · rw [htn]
        omega
    rw [← hr]
    have hupper : ∀ c ∈ pySlice h.udigits (some (i * (size : Int)))
        (some (i * (size : Int) + size)), isUpperHexDigitB c = true :=
      fun c hc => hexWF_udigits_upper h hwf c (pySlice_mem_subset hc)
    rw [(udigits_mk_of_upper _ hupper).1, hlen]

/-- C4 witness: `Hex("AB").get_byte(0)` is in bounds from the left and
returns exactly 2 digits. -/
theorem hex_chunk_amended_witness :
    (Hex.mk ['A', 'B']).udigits.length = 2 :=
  (hex_chunk_amended ⟨['A', 'B']⟩ 0 2 false).2.2 (by decide) rfl
    (by decide) (by decide) (by decide) ⟨['A', 'B']⟩ rfl

/-- C2: on the text `"STRING : ABC HEX(ABC)\n"`,
`get_field("STRING", " ", separator=" : ")` returns `("ABC", 9, 12)` and
`get_field("HEX", ")", separator="(", to_hex=True)` returns
`(Hex("ABC"), 17, 20)`; and in general every successful `get_field` result
`(val, s, e)` satisfies `text[s:e] == val` (before the optional `Hex`
conversion, which additionally strips surrounding whitespace). -/
theorem get_field_exact :
    getField "STRING : ABC HEX(ABC)\n".toList "STRING".toList " ".toList
      " : ".toList 0 none = some ("ABC".toList, 9, 12) ∧
    getFieldHexE "STRING : ABC HEX(ABC)\n".toList "HEX".toList ")".toList
      "(".toList 0 none = .ok (some (⟨"ABC".toList⟩, 17, 20)) ∧
    (∀ (t label endStr sep : List Char) (start : Int) (stop : Option Int)
        (v : List Char) (s e : Int),
      getField t label endStr sep start stop = some (v, s, e) →
      pySlice t (some s) (some e) = v) ∧
    (∀ (t label endStr sep : List Char) (start : Int) (stop : Option Int)
        (hv : Hex) (s e : Int),
      getFieldHexE t label endStr sep start stop = .ok (some (hv, s, e)) →
      mkHexStr (pyStrip (pySlice t (some s) (some e))) = some hv) := by
  refine ⟨by decide, by decide, ?_, ?_⟩
  · intro t label endStr sep start stop v s e h
    simp only [getField] at h
    split at h
    · exact absurd h (by simp)
    · split at h
      · exact absurd h (by simp)
      · simp only [Option.some.injEq, Prod.mk.injEq] at h
        obtain ⟨hv, hs, he⟩ := h
        rw [← hv, ← hs, ← he]
  · intro t label endStr sep start stop hv s e h
    simp only [getFieldHexE] at h
    split at h
    · exact absurd h (by simp)
    · next v2 s2 e2 heq =>
      split at h
      · exact absurd h (by simp)
      · next h2 hmk =>
        simp only [Except.ok.injEq, Option.some.injEq, Prod.mk.injEq] at h
        obtain ⟨hh, hs, he⟩ := h
        subst hh
        subst hs
        subst he
        simp only [getField] at heq
        split at heq
        · exact absurd heq (by simp)
        · split at heq
          · exact absurd heq (by simp)
          · simp only [Option.some.injEq, Prod.mk.injEq] at heq
            obtain ⟨hv2, hs2, he2⟩ := heq
            rw [← hs2, ← he2, hv2]
            exact hmk

/-- C2 witness: extraction exactness instantiated at the scenario text
(the slice `[9:12]` is exactly the extracted `"ABC"`). -/
theorem get_field_exact_witness :
    pySlice "STRING : ABC HEX(ABC)\n".toList (some 9) (some 12) =
      "ABC".toList :=
  get_field_exact.2.2.1 "STRING : ABC HEX(ABC)\n".toList "STRING".toList
    " ".toList " : ".toList 0 none "ABC".toList 9 12 (by decide)

theorem countP_le_one_unique {p : Nat → Bool} {l : List Nat}
    (h : l.countP p ≤ 1) :
    ∀ a b, a ∈ l → b ∈ l → p a = true → p b = true → a = b := by
  intro a b ha hb hpa hpb
  have ha2 : a ∈ l.filter p := List.mem_filter.mpr ⟨ha, hpa⟩
  have hb2 : b ∈ l.filter p := List.mem_filter.mpr ⟨hb, hpb⟩
  rw [List.countP_eq_length_filter] at h
  rcases hf : l.filter p with _ | ⟨x, _ | ⟨y, xs⟩⟩
  · rw [hf] at ha2
    exact absurd ha2 (List.not_mem_nil a)
  · rw [hf] at ha2 hb2
    have hax := List.mem_singleton.mp ha2
    have hbx := List.mem_singleton.mp hb2
    rw [hax, hbx]
  · rw [hf] at h
    simp at h

theorem find?_eq_reverse_of_unique {p : Nat → Bool} {l : List Nat}
    (hu : ∀ a b, a ∈ l → b ∈ l → p a = true → p b = true → a = b) :
    l.find? p = l.reverse.find? p := by
  cases h1 : l.find? p with
  | none =>
    cases h2 : l.reverse.find? p with
    | none => rfl
    | some b =>
      have hb := List.find?_some h2
      have hbm := List.mem_reverse.mp (List.mem_of_find?_eq_some h2)
      rw [List.find?_eq_none] at h1
      exact absurd hb (by simpa using h1 b hbm)
  | some a =>
    cases h2 : l.reverse.find? p with
    | none =>
      rw [List.find?_eq_none] at h2
      have ha := List.find?_some h1
      have ham := List.mem_of_find?_eq_some h1
      exact absurd ha (by simpa using h2 a (List.mem_reverse.mpr ham))
    | some b =>
      rw [hu a b (List.mem_of_find?_eq_some h1)
        (List.mem_reverse.mp (List.mem_of_find?_eq_some h2))
        (List.find?_some h1) (List.find?_some h2)]

theorem pyFind_eq_pyRfind (t sub : List Char) (start : Int)
    (stop : Option Int) (hu : matchCount t sub ≤ 1) :
    pyFind t sub start stop = pyRfind t sub start stop := by
  have hmatch : ∀ a b, a ∈ List.range (t.length + 1) →
      b ∈ List.range (t.length + 1) →
      findWindowP t sub (pyAdjust t.length start)
        (stopBound t.length stop) a = true →
      findWindowP t sub (pyAdjust t.length start)
        (stopBound t.length stop) b = true → a = b := by
    intro a b ha hb hpa hpb
    simp only [findWindowP, Bool.and_eq_true, decide_eq_true_eq] at hpa hpb
    exact countP_le_one_unique (l := List.range (t.length + 1)) hu a b ha hb
      (by simpa using hpa.2) (by simpa using hpb.2)
  unfold pyFind pyRfind
  rw [find?_eq_reverse_of_unique hmatch]

/-- C8: whenever the label occurs exactly once in the text, `get_field`
and `rget_field` (with any end string, separator, search window, and with
or without the `Hex` conversion) return the same triple: forward `find`
and backward `rfind` locate the same unique occurrence, and the end string
is searched forward from the same cursor in both. -/
theorem get_field_symmetry (t label endStr sep : List Char) (start : Int)
    (stop : Option Int) (hu : matchCount t label = 1) :
    getField t label endStr sep start stop =
      rgetField t label endStr sep start stop ∧
    getFieldHexE t label endStr sep start stop =
      rgetFieldHexE t label endStr sep start stop := by
  have hf := pyFind_eq_pyRfind t label start stop (le_of_eq hu)
  have h1 : getField t label endStr sep start stop =
      rgetField t label endStr sep start stop := by
    simp only [getField, rgetField, hf]
  exact ⟨h1, by simp only [getFieldHexE, rgetFieldHexE, h1]⟩

/-- C8 witness: on the text `"AB"` the label `"A"` occurs once, and both
directions return the same (empty-valued) triple. -/
theorem get_field_symmetry_witness :
    getField "AB".toList "A".toList "B".toList [] 0 none =
      rgetField "AB".toList "A".toList "B".toList [] 0 none ∧
    getFieldHexE "AB".toList "A".toList "B".toList [] 0 none =
      rgetFieldHexE "AB".toList "A".toList "B".toList [] 0 none :=
  get_field_symmetry "AB".toList "A".toList "B".toList [] 0 none (by decide)

/-- C9: `psw_scrunch` reduces `Hex("070430008000000000000000054387AA")`
to `Hex("070C3000854387AA")` (turn on bit 12, OR word 1 with word 3,
concatenate word 0 with the OR result), and returns any non-negative
64-bit input unchanged. -/
theorem psw_scrunch_scenario :
    pswScrunchE ⟨"070430008000000000000000054387AA".toList⟩ =
      .ok ⟨"070C3000854387AA".toList⟩ ∧
    ∀ psw : Hex, psw.signStr ≠ ['-'] → psw.bitLen = 64 →
      pswScrunchE psw = .ok psw := by
  refine ⟨by decide, ?_⟩
  intro psw h1 h2
  unfold pswScrunchE
  rw [if_neg h1, if_pos h2]

/-- C9 witness: the 64-bit identity at the concrete 64-bit zero PSW. -/
theorem psw_scrunch_scenario_witness :
    pswScrunchE ⟨"0000000000000000".toList⟩ =
      .ok ⟨"0000000000000000".toList⟩ :=
  psw_scrunch_scenario.2 ⟨"0000000000000000".toList⟩ (by decide) (by decide)

theorem wf_mk_of_upper (ds : List Char)
    (h : ∀ c ∈ ds, isUpperHexDigitB c = true) : hexWFB ⟨ds⟩ = true := by
  rcases ds with _ | ⟨c, l⟩
  · decide
  · have hc := upperHex_ne_dash (h c (List.mem_cons_self c l))
    rw [hexWFB]
    rw [if_neg (by simp [hc])]
    exact List.all_eq_true.mpr h

theorem wf_mk_signed (ds : List Char)
    (h : ∀ c ∈ ds, isUpperHexDigitB c = true)
    (hz : allZeroB ds = false) : hexWFB ⟨'-' :: ds⟩ = true := by
  have hne : ds ≠ [] := by
    intro hcontra
    rw [hcontra] at hz
    exact absurd hz (by decide)
  rw [hexWFB,
    if_pos (show (Hex.mk ('-' :: ds)).val.head? = some '-' from rfl)]
  simp only [List.tail_cons, Bool.and_eq_true]
  exact ⟨⟨by simpa using hne, List.all_eq_true.mpr h⟩, by simp [hz]⟩

/-- The constructor-tail pattern shared by `hexOfInt`, `resize`,
`setBitE` and `concat`: attach the sign unless the digits are all zero. -/
theorem wf_build (neg : Prop) [Decidable neg] (ds : List Char)
    (h : ∀ c ∈ ds, isUpperHexDigitB c = true) :
    hexWFB (if allZeroB ds then (⟨ds⟩ : Hex)
      else if neg then ⟨'-' :: ds⟩ else ⟨ds⟩) = true ∧
    (if allZeroB ds then (⟨ds⟩ : Hex)
      else if neg then ⟨'-' :: ds⟩ else ⟨ds⟩).udigits = ds := by
  by_cases hz : allZeroB ds
  · rw [if_pos hz]
    exact ⟨wf_mk_of_upper ds h, (udigits_mk_of_upper ds h).1⟩
  · rw [if_neg hz]
    by_cases hn : neg
    · rw [if_pos hn]
      exact ⟨wf_mk_signed ds h (by simpa using hz), (udigits_mk_dash ds).1⟩
    · rw [if_neg hn]
      exact ⟨wf_mk_of_upper ds h, (udigits_mk_of_upper ds h).1⟩

theorem wf_hexOfInt (n : Int) :
    hexWFB (hexOfInt n) = true ∧ (hexOfInt n).udigits ≠ [] := by
  have hupper := toHexLower_all_upper n.natAbs
  have hb := wf_build (n < 0) ((toHexLower n.natAbs).map pyUpper) hupper
  refine ⟨hb.1, ?_⟩
  rw [hexOfInt_udigits]
  have hlen := toHexLower_length_pos n.natAbs
  intro hcontra
  have hlen2 := congrArg List.length hcontra
  simp only [List.length_map, List.length_nil] at hlen2
  omega

theorem resizeDigits_ne_nil (n w : Nat) : Hex.resizeDigits n w ≠ [] := by
  have h1 : (Hex.resizeDigits n w).length =
      max ((w + 3) / 4) ((toHexLower (if w < Nat.size n then n % 2 ^ w
        else n)).map pyUpper).length := by
    rw [Hex.resizeDigits, zfill_length]
  have h2 := toHexLower_length_pos (if w < Nat.size n then n % 2 ^ w else n)
  intro hcontra
  rw [hcontra] at h1
  simp only [List.length_nil, List.length_map] at h1
  omega

theorem wf_resize (h : Hex) (w : Nat) :
    hexWFB (h.resize w) = true ∧ (h.resize w).udigits ≠ [] := by
  have hupper := resizeDigits_all_upper (fromHexNat h.udigits) w
  have hb := wf_build (h.isNegB = true) _ hupper
  rw [Hex.resize]
  exact ⟨hb.1, by rw [hb.2]; exact resizeDigits_ne_nil _ _⟩

theorem wf_repad (a : Hex) (n : Int) :
    hexWFB (a.repadToLeft (hexOfInt n)) = true ∧
    (a.repadToLeft (hexOfInt n)).udigits ≠ [] := by
  rw [Hex.repadToLeft]
  split
  · exact wf_resize (hexOfInt n) a.bitLen
  · exact wf_hexOfInt n

theorem except_bind_ok {α β : Type} (m : Except PyErr α)
    (f : α → Except PyErr β) (b : β) (h : (m >>= f) = .ok b) :
    ∃ a, m = .ok a ∧ f a = .ok b := by
  cases m with
  | error e => exact absurd h (by simp [Bind.bind, Except.bind])
  | ok a => exact ⟨a, rfl, h⟩

theorem addE_ok_shape (a b r : Hex) (h : a.addE b = .ok r) :
    ∃ n, r = a.repadToLeft (hexOfInt n) := by
  simp only [Hex.addE] at h
  obtain ⟨x, _, h⟩ := except_bind_ok _ _ _ h
  obtain ⟨y, _, h⟩ := except_bind_ok _ _ _ h
  injection h with h
  exact ⟨x + y, h.symm⟩

theorem subE_ok_shape (a b r : Hex) (h : a.subE b = .ok r) :
    ∃ n, r = a.repadToLeft (hexOfInt n) := by
  simp only [Hex.subE] at h
  obtain ⟨x, _, h⟩ := except_bind_ok _ _ _ h
  obtain ⟨y, _, h⟩ := except_bind_ok _ _ _ h
  injection h with h
  exact ⟨x - y, h.symm⟩

theorem mulE_ok_shape (a b r : Hex) (h : a.mulE b = .ok r) :
    ∃ n, r = a.repadToLeft (hexOfInt n) := by
  simp only [Hex.mulE] at h
  obtain ⟨x, _, h⟩ := except_bind_ok _ _ _ h
  obtain ⟨y, _, h⟩ := except_bind_ok _ _ _ h
  injection h with h
  exact ⟨x * y, h.symm⟩

theorem divE_ok_shape (a b r : Hex) (h : a.divE b = .ok r) :
    ∃ n, r = a.repadToLeft (hexOfInt n) := by
  simp only [Hex.divE] at h
  obtain ⟨x, _, h⟩ := except_bind_ok _ _ _ h
  obtain ⟨y, _, h⟩ := except_bind_ok _ _ _ h
  split at h
  · exact absurd h (by simp)
  · injection h with h
    exact ⟨Int.fdiv x y, h.symm⟩

theorem modE_ok_shape (a b r : Hex) (h : a.modE b = .ok r) :
    ∃ n, r = a.repadToLeft (hexOfInt n) := by
  simp only [Hex.modE] at h
  obtain ⟨x, _, h⟩ := except_bind_ok _ _ _ h
  obtain ⟨y, _, h⟩ := except_bind_ok _ _ _ h
  split at h
  · exact absurd h (by simp)
  · injection h with h
    exact ⟨Int.fmod x y, h.symm⟩

theorem orE_ok_shape (a b r : Hex) (h : a.orE b = .ok r) :
    ∃ n, r = a.repadToLeft (hexOfInt n) := by
  simp only [Hex.orE] at h
  obtain ⟨x, _, h⟩ := except_bind_ok _ _ _ h
  obtain ⟨y, _, h⟩ := except_bind_ok _ _ _ h
  injection h with h
  exact ⟨Int.lor x y, h.symm⟩

theorem andE_ok_shape (a b r : Hex) (h : a.andE b = .ok r) :
    ∃ n, r = a.repadToLeft (hexOfInt n) := by
  simp only [Hex.andE] at h
  obtain ⟨x, _, h⟩ := except_bind_ok _ _ _ h
  obtain ⟨y, _, h⟩ := except_bind_ok _ _ _ h
  injection h with h
  exact ⟨Int.land x y, h.symm⟩

theorem wf_patchDigits (h : Hex) (hwf : hexWFB h = true) (idx d : Nat) :
    ∀ c ∈ h.patchDigits idx d, isUpperHexDigitB c = true := by
  intro c hc
  simp only [Hex.patchDigits, List.mem_append, List.mem_singleton] at hc
  rcases hc with (hc | hc) | hc
  · exact hexWF_udigits_upper h hwf c (List.mem_of_mem_take hc)
  · subst hc
    simpa [isUpperHexDigitB] using pyUpper_hexCharL_mem d
  · exact hexWF_udigits_upper h hwf c (List.mem_of_mem_drop hc)

theorem wf_setBitCore (h : Hex) (p : Int) (f : Nat → Nat → Nat)
    (hwf : hexWFB h = true) (r : Hex) (hr : h.setBitCore p f = .ok r) :
    hexWFB r = true ∧ r.udigits ≠ [] := by
  simp only [Hex.setBitCore] at hr
  split at hr
  · exact absurd hr (by simp)
  · split at hr
    · injection hr with hr
      subst hr
      have hb := wf_build (h.isNegB = true) _ (wf_patchDigits h hwf
        (p.toNat / 4) (f (hexVal (h.udigits.getD (p.toNat / 4) '0'))
          (1 <<< (3 - p.toNat % 4))))
      refine ⟨hb.1, ?_⟩
      rw [hb.2]
      simp [Hex.patchDigits]
    · exact absurd hr (by simp)

theorem wf_setBitE (h : Hex) (pos : Int) (fr : Bool) (f : Nat → Nat → Nat)
    (hwf : hexWFB h = true) (r : Hex) (hr : h.setBitE pos fr f = .ok r) :
    hexWFB r = true ∧ r.udigits ≠ [] :=
  wf_setBitCore h _ f hwf r hr

theorem wf_getChunkE (h : Hex) (i : Int) (size : Nat) (fr : Bool)
    (hwf : hexWFB h = true) (r : Hex) (hr : h.getChunkE i size fr = .ok r) :
    hexWFB r = true := by
  simp only [Hex.getChunkE] at hr
  split at hr
  · exact absurd hr (by simp)
  · injection hr with hr
    subst hr
    exact wf_mk_of_upper _
      (fun c hc => hexWF_udigits_upper h hwf c (pySlice_mem_subset hc))

theorem wf_getSlice (h : Hex) (a b : Option Int) (hwf : hexWFB h = true) :
    hexWFB (h.getSlice a b) = true :=
  wf_mk_of_upper _
    (fun c hc => hexWF_udigits_upper h hwf c (pySlice_mem_subset hc))

theorem wf_concat (a b : Hex) (hwfa : hexWFB a = true)
    (hwfb : hexWFB b = true) :
    hexWFB (a.concat b) = true ∧
    (a.concat b).udigits = a.udigits ++ b.udigits := by
  have hupper : ∀ c ∈ a.udigits ++ b.udigits, isUpperHexDigitB c = true := by
    intro c hc
    rcases List.mem_append.mp hc with hc | hc
    · exact hexWF_udigits_upper a hwfa c hc
    · exact hexWF_udigits_upper b hwfb c hc
  have hb := wf_build (a.isNegB = true) _ hupper
  simp only [Hex.concat]
  exact hb

theorem hexNorm_snd_subset (s : List Char) :
    ∀ c ∈ (hexNorm s).2, c ∈ (s.filter (fun c => !c.isWhitespace)).map pyUpper := by
  intro c hc
  simp only [hexNorm] at hc
  split at hc <;> split at hc <;>
    first
      | exact (List.tail_sublist _).subset (List.mem_of_mem_drop hc)
      | exact (List.tail_sublist _).subset hc
      | exact List.mem_of_mem_drop hc
      | exact hc

theorem mkHexStr_wf (s : List Char) (h : Hex) (hmk : mkHexStr s = some h) :
    hexWFB h = true := by
  simp only [mkHexStr] at hmk
  split at hmk
  · next hall =>
    have hupper : ∀ c ∈ (hexNorm s).2, isUpperHexDigitB c = true := by
      intro c hc
      obtain ⟨c0, _, hc0⟩ := List.mem_map.mp (hexNorm_snd_subset s c hc)
      have hhex := List.all_eq_true.mp hall c hc
      rw [← hc0] at hhex ⊢
      exact pyUpper_hex_upper c0 hhex
    split at hmk
    · injection hmk with hmk
      rw [← hmk]
      exact wf_mk_of_upper _ hupper
    · next hz =>
      injection hmk with hmk
      rw [← hmk]
      by_cases hp : (hexNorm s).1
      · rw [if_pos hp]
        exact wf_mk_signed _ hupper (by simpa using hz)
      · rw [if_neg hp]
        exact wf_mk_of_upper _ hupper
  · exact absurd hmk (by simp)

theorem wf_resizeE (h : Hex) (w : Int) (r : Hex) (hr : h.resizeE w = .ok r) :
    hexWFB r = true ∧ r.udigits ≠ [] := by
  simp only [Hex.resizeE] at hr
  split at hr
  · exact absurd hr (by simp)
  · cases htoi : Hex.toIntE ⟨h.udigits⟩ with
    | error e =>
      rw [htoi] at hr
      exact absurd hr (by simp [Except.map])
    | ok v =>
      rw [htoi] at hr
      injection hr with hr
      rw [← hr]
      exact wf_resize h w.toNat

/-- C7 (counterexample): `Hex("")` is accepted by the constructor and has
an *empty* digit string — its bit width is 0 (not ≥ 4) and its numeric
value is undefined (`to_int` raises `ValueError`). -/
theorem hex_empty_cex :
    mkHexStr [] = some ⟨[]⟩ ∧ (Hex.mk []).bitLen = 0 ∧
    Hex.toIntE ⟨[]⟩ = .error .invalidValue := by decide

/-- C7 (amended): every `Hex` produced by any operation satisfies the
invariant `digits ∈ [0-9A-F]*` with a sign only ahead of a nonzero,
nonempty digit string; the digit string is moreover nonempty — hence bit
width ≥ 4 and a well-defined numeric value — for the integer constructor,
`resize`, the arithmetic and logical operators, and `turn_on_bit` /
`turn_off_bit`, while the string constructor (on an input whose residue
has no hex digit, e.g. `""`), indexing/slicing and the chunk getters can
produce an empty digit string (concatenation yields the concatenated
digit strings). -/
theorem hex_invariant_amended :
    (∀ (s : List Char) (h : Hex), mkHexStr s = some h → hexWFB h = true) ∧
    (∀ n : Int, hexWFB (hexOfInt n) = true ∧ (hexOfInt n).udigits ≠ []) ∧
    (∀ (h : Hex) (w : Int) (r : Hex), h.resizeE w = .ok r →
      hexWFB r = true ∧ r.udigits ≠ []) ∧
    (∀ a b r : Hex, a.addE b = .ok r → hexWFB r = true ∧ r.udigits ≠ []) ∧
    (∀ a b r : Hex, a.subE b = .ok r → hexWFB r = true ∧ r.udigits ≠ []) ∧
    (∀ a b r : Hex, a.mulE b = .ok r → hexWFB r = true ∧ r.udigits ≠ []) ∧
    (∀ a b r : Hex, a.divE b = .ok r → hexWFB r = true ∧ r.udigits ≠ []) ∧
    (∀ a b r : Hex, a.modE b = .ok r → hexWFB r = true ∧ r.udigits ≠ []) ∧
    (∀ a b r : Hex, a.orE b = .ok r → hexWFB r = true ∧ r.udigits ≠ []) ∧
    (∀ a b r : Hex, a.andE b = .ok r → hexWFB r = true ∧ r.udigits ≠ []) ∧
    (∀ (h : Hex) (p : Int) (fr : Bool) (r : Hex), hexWFB h = true →
      h.turnOnBitE p fr = .ok r → hexWFB r = true ∧ r.udigits ≠ []) ∧
    (∀ (h : Hex) (p : Int) (fr : Bool) (r : Hex), hexWFB h = true →
      h.turnOffBitE p fr = .ok r → hexWFB r = true ∧ r.udigits ≠ []) ∧
    (∀ (h : Hex) (i : Int) (size : Nat) (fr : Bool) (r : Hex),
      hexWFB h = true → h.getChunkE i size fr = .ok r →
      hexWFB r = true) ∧
    (∀ (h : Hex) (a b : Option Int), hexWFB h = true →
      hexWFB (h.getSlice a b) = true) ∧
    (∀ a b : Hex, hexWFB a = true → hexWFB b = true →
      hexWFB (a.concat b) = true ∧
      (a.concat b).udigits = a.udigits ++ b.udigits) := by
  refine ⟨mkHexStr_wf, wf_hexOfInt, wf_resizeE, ?_, ?_, ?_, ?_, ?_, ?_, ?_,
    ?_, ?_, ?_, wf_getSlice, wf_concat⟩
  · intro a b r hr
    obtain ⟨n, hn⟩ := addE_ok_shape a b r hr
    exact hn ▸ wf_repad a n
  · intro a b r hr
    obtain ⟨n, hn⟩ := subE_ok_shape a b r hr
    exact hn ▸ wf_repad a n
  · intro a b r hr
    obtain ⟨n, hn⟩ := mulE_ok_shape a b r hr
    exact hn ▸ wf_repad a n
  · intro a b r hr
    obtain ⟨n, hn⟩ := divE_ok_shape a b r hr
    exact hn ▸ wf_repad a n
  · intro a b r hr
    obtain ⟨n, hn⟩ := modE_ok_shape a b r hr
    exact hn ▸ wf_repad a n
  · intro a b r hr
    obtain ⟨n, hn⟩ := orE_ok_shape a b r hr
    exact hn ▸ wf_repad a n
  · intro a b r hr
    obtain ⟨n, hn⟩ := andE_ok_shape a b r hr
    exact hn ▸ wf_repad a n
  · intro h p fr r hwf hr
    exact wf_setBitE h p fr _ hwf r hr
  · intro h p fr r hwf hr
    exact wf_setBitE h p fr _ hwf r hr
  · intro h i size fr r hwf hr
    exact wf_getChunkE h i size fr hwf r hr

/-- C7 witness: the invariant and nonemptiness instantiated at concrete
inputs of each family: the constructor on `"a"`, the integer constructor
at `-10`, `Hex("F") + Hex("1")`, and `Hex("8").turn_off_bit(0)`. -/
theorem hex_invariant_amended_witness :
    hexWFB ⟨['A']⟩ = true ∧
    (hexWFB (hexOfInt (-10)) = true ∧ (hexOfInt (-10)).udigits ≠ []) ∧
    (hexWFB ⟨['1', '0']⟩ = true ∧ (Hex.mk ['1', '0']).udigits ≠ []) ∧
    (hexWFB ⟨['0']⟩ = true ∧ (Hex.mk ['0']).udigits ≠ []) :=
  ⟨hex_invariant_amended.1 ['a'] ⟨['A']⟩ (by decide),
   hex_invariant_amended.2.1 (-10),
   hex_invariant_amended.2.2.2.1 ⟨['F']⟩ ⟨['1']⟩ ⟨['1', '0']⟩ (by decide),
   (hex_invariant_amended.2.2.2.2.2.2.2.2.2.2.2.1 ⟨['8']⟩ 0 false ⟨['0']⟩
     (by decide) (by decide))⟩

theorem pySlice_none_some (l : List Char) (ki : Int) (k : Nat)
    (hk : ki = (k : Int)) : pySlice l none (some ki) = l.take k := by
  subst hk
  simp only [pySlice, pyAdjust]
  rw [if_neg (by omega)]
  simp only [Int.toNat_natCast, List.drop_zero, Nat.sub_zero]
  rcases le_total k l.length with h | h
  · rw [min_eq_left h]
  · rw [min_eq_right h, List.take_length, List.take_of_length_le h]

theorem pySlice_some_none (l : List Char) (ki : Int) (k : Nat)
    (hk : ki = (k : Int)) : pySlice l (some ki) none = l.drop k := by
  subst hk
  simp only [pySlice, pyAdjust]
  rw [if_neg (by omega)]
  simp only [Int.toNat_natCast]
  rw [List.take_of_length_le (by simp)]
  rcases le_total k l.length with h | h
  · rw [min_eq_left h]
  · rw [min_eq_right h, List.drop_length, List.drop_eq_nil_of_le h]

theorem hexOfBytes_all_upper (bs : List Nat) :
    ∀ c ∈ (hexOfBytes bs).val, isUpperHexDigitB c = true := by
  intro c hc
  simp only [hexOfBytes, List.mem_flatten, List.mem_map] at hc
  obtain ⟨l, ⟨b, _, hb⟩, hcl⟩ := hc
  rw [← hb] at hcl
  simp only [List.mem_cons, List.not_mem_nil, or_false] at hcl
  rcases hcl with hcl | hcl <;>
    · subst hcl
      simpa [isUpperHexDigitB] using pyUpper_hexCharL_mem _

theorem hexOfBytes_udigits (bs : List Nat) :
    (hexOfBytes bs).udigits = (hexOfBytes bs).val :=
  (udigits_mk_of_upper _ (hexOfBytes_all_upper bs)).1

theorem getSlice_udigits (h : Hex)
    (hupper : ∀ c ∈ h.udigits, isUpperHexDigitB c = true) (a b : Option Int) :
    (h.getSlice a b).udigits = pySlice h.udigits a b :=
  (udigits_mk_of_upper _ (fun c hc => hupper c (pySlice_mem_subset hc))).1

theorem toIntE_of_upper (ds : List Char)
    (hupper : ∀ c ∈ ds, isUpperHexDigitB c = true) (hne : ds ≠ []) :
    Hex.toIntE ⟨ds⟩ = .ok (fromHexNat ds) := by
  obtain ⟨hud, hneg⟩ := udigits_mk_of_upper ds hupper
  rw [Hex.toIntE, hud]
  rw [if_pos ⟨hne, List.all_eq_true.mpr
    (fun c hc => isUpperHexDigitB_isHexDigitB (hupper c hc))⟩]
  rw [Hex.toIntRaw, hud, hneg]
  simp

theorem hexNeE_true (a b : Hex) (x y : Int) (hx : a.toIntE = .ok x)
    (hy : b.toIntE = .ok y) (hxy : x ≠ y) : hexNeE a b = .ok true := by
  simp only [hexNeE, hx, hy]
  show Except.ok (decide ¬ x = y) = Except.ok true
  simp [hxy]

theorem except_ok_bind {α β : Type} (a : α) (f : α → Except PyErr β) :
    (Except.ok a >>= f) = f a := rfl

theorem dumpHeaderData_notAHeader (bs : List Nat)
    (h1 : (hexOfBytes bs).val.take 10 ≠ [])
    (h2 : fromHexNat ((hexOfBytes bs).val.take 10) ≠
      fromHexNat "C4D9F240C8".toList)
    (h3 : ((hexOfBytes bs).val.drop 8320).take 10 ≠ [])
    (h4 : fromHexNat (((hexOfBytes bs).val.drop 8320).take 10) ≠
      fromHexNat "C4D9F240C8".toList) :
    dumpHeaderData bs = .error .notAHeader := by
  have huppall := hexOfBytes_all_upper bs
  have hud := hexOfBytes_udigits bs
  have htsig : dr2hSig.toIntE = .ok (fromHexNat "C4D9F240C8".toList) := by
    decide
  have hs1 : (hexOfBytes bs).getSlice none (some 10) =
      ⟨(hexOfBytes bs).val.take 10⟩ := by
    rw [Hex.getSlice, hud, pySlice_none_some _ (10 : Int) 10 (by norm_num)]
  have ht1 : ((hexOfBytes bs).getSlice none (some 10)).toIntE =
      .ok (fromHexNat ((hexOfBytes bs).val.take 10)) := by
    rw [hs1]
    exact toIntE_of_upper _
      (fun c hc => huppall c (List.mem_of_mem_take hc)) h1
  have hne1 := hexNeE_true _ _ _ _ ht1 htsig (by exact_mod_cast h2)
  have hs2 : (hexOfBytes bs).getSlice (some 8320) none =
      ⟨(hexOfBytes bs).val.drop 8320⟩ := by
    rw [Hex.getSlice, hud, pySlice_some_none _ (8320 : Int) 8320 (by norm_num)]
  have hupp2 : ∀ c ∈ (hexOfBytes bs).val.drop 8320,
      isUpperHexDigitB c = true :=
    fun c hc => huppall c (List.mem_of_mem_drop hc)
  have hs3 : (Hex.mk ((hexOfBytes bs).val.drop 8320)).getSlice none
      (some 10) = ⟨((hexOfBytes bs).val.drop 8320).take 10⟩ := by
    rw [Hex.getSlice, (udigits_mk_of_upper _ hupp2).1,
      pySlice_none_some _ (10 : Int) 10 (by norm_num)]
  have ht2 : (Hex.mk (((hexOfBytes bs).val.drop 8320).take 10)).toIntE =
      .ok (fromHexNat (((hexOfBytes bs).val.drop 8320).take 10)) :=
    toIntE_of_upper _
      (fun c hc => hupp2 c (List.mem_of_mem_take hc)) h3
  have hne2 := hexNeE_true _ _ _ _ ht2 htsig (by exact_mod_cast h4)
  simp only [dumpHeaderData, hne1, except_ok_bind, eq_self_iff_true, if_true]
  rw [hs2, hs3, hne2, except_ok_bind]
  rw [if_pos rfl]

theorem dumpHeaderFromHeader_ok (hh : Hex) (rec : HeaderRec)
    (hok : dumpHeaderFromHeader hh = .ok rec) :
    (rec.dumpType = "SAD".toList ↔ rec.cond = none) ∧
    (∀ c, rec.cond = some c → ∃ rname,
      c.remoteSysname = (if rname = [] then none else some rname) ∧
      c.remoteDump = decide (rname ≠ rec.sysname)) := by
  simp only [dumpHeaderFromHeader] at hok
  obtain ⟨t, ht, hok⟩ := except_bind_ok _ _ _ hok
  obtain ⟨dt, hdt, hok⟩ := except_bind_ok _ _ _ hok
  obtain ⟨v, hv, hok⟩ := except_bind_ok _ _ _ hok
  obtain ⟨rl, hrl, hok⟩ := except_bind_ok _ _ _ hok
  cases hmt : dumpTypeOf t hh.toCharStr with
  | none =>
    rw [hmt] at hok
    exact absurd hok (by simp)
  | some t2 =>
    rw [hmt] at hok
    obtain ⟨cond, hcond, hok⟩ := except_bind_ok _ _ _ hok
    injection hok with hok
    subst hok
    simp only [dumpHeaderCond] at hcond
    split at hcond
    · next hne =>
      cases hblocks : (hh.getSlice (some 480) (some 488)).toIntE with
      | error e =>
        rw [hblocks] at hcond
        exact absurd hcond (by simp [Except.map])
      | ok blocks =>
        rw [hblocks] at hcond
        simp only [Except.map] at hcond
        injection hcond with hcond
        subst hcond
        refine ⟨⟨fun hsad => absurd hsad hne, fun hnone => absurd hnone
          (by simp)⟩, ?_⟩
        intro c hc
        simp only [Option.some.injEq] at hc
        subst hc
        exact ⟨_, rfl, rfl⟩
    · next hne =>
      injection hcond with hcond
      subst hcond
      refine ⟨⟨fun _ => rfl, fun _ => by simpa using hne⟩, ?_⟩
      intro c hc
      exact absurd hc (by simp)

theorem dumpHeaderData_ok_shape (bs : List Nat) (rec : HeaderRec)
    (hok : dumpHeaderData bs = .ok rec) :
    (rec.dumpType = "SAD".toList ↔ rec.cond = none) ∧
    (∀ c, rec.cond = some c →
      (∀ r, c.remoteSysname = some r → r ≠ []) ∧
      c.remoteDump = (match c.remoteSysname with
        | some r => decide (r ≠ rec.sysname)
        | none => decide (rec.sysname ≠ []))) := by
  simp only [dumpHeaderData] at hok
  obtain ⟨ne1, _, hok⟩ := except_bind_ok _ _ _ hok
  obtain ⟨ne2, _, hok⟩ := except_bind_ok _ _ _ hok
  split at hok
  · exact absurd hok (by simp)
  · obtain ⟨hiff, hcond⟩ := dumpHeaderFromHeader_ok _ rec hok
    refine ⟨hiff, ?_⟩
    intro c hc
    obtain ⟨rname, hrs, hrd⟩ := hcond c hc
    constructor
    · intro r hr
      rw [hrs] at hr
      by_cases hemp : rname = []
      · rw [if_pos hemp] at hr
        exact absurd hr (by simp)
      · rw [if_neg hemp] at hr
        injection hr with hr
        rw [← hr]
        exact hemp
    · rw [hrs, hrd]
      by_cases hemp : rname = []
      · rw [if_pos hemp, hemp]
        exact decide_eq_decide.mpr ne_comm
      · rw [if_neg hemp]

theorem hexOfBytes_replicate_zero (n : Nat) :
    (hexOfBytes (List.replicate n 0)).val = List.replicate (2 * n) '0' := by
  induction n with
  | zero => rfl
  | succ k ih =>
    simp only [hexOfBytes] at ih ⊢
    rw [List.replicate_succ, List.map_cons, List.flatten_cons, ih]
    rw [show 2 * (k + 1) = 2 * k + 1 + 1 by ring]
    rw [List.replicate_succ, List.replicate_succ]
    rfl

theorem drop_replicate_char (n m : Nat) (c : Char) :
    (List.replicate (n + m) c).drop n = List.replicate m c := by
  induction n with
  | zero => simp
  | succ k ih =>
    rw [Nat.succ_add, List.replicate_succ, List.drop_succ_cons]
    exact ih

/-- C5 (counterexample): a short source does NOT fail with the
`RuntimeError` the spec calls `NotAHeader` — on one byte the second
signature window is empty, `Hex("").to_int()` inside `__ne__` raises
`ValueError` first, and that is the error the caller sees. -/
theorem dump_header_short_cex :
    dumpHeaderData [0xC4] = .error .invalidValue ∧
    PyErr.invalidValue ≠ PyErr.notAHeader := by
  exact ⟨by decide, by decide⟩

/-- C5 (amended): a source whose two signature windows are non-empty
(length above the second-block offset) and both miss the eyecatcher
fails with `NotAHeader` (sources too short for the retry window raise
`ValueError` from `Hex("").to_int()` instead), and decoding is
all-or-nothing: every successful decode fills every unconditional
field, with the conditional block omitted exactly when the dump type is
`SAD`. -/
theorem dump_header_all_or_nothing (bs bs2 : List Nat) (rec : HeaderRec)
    (h1 : (hexOfBytes bs).val.take 10 ≠ [])
    (h2 : fromHexNat ((hexOfBytes bs).val.take 10) ≠
      fromHexNat "C4D9F240C8".toList)
    (h3 : ((hexOfBytes bs).val.drop 8320).take 10 ≠ [])
    (h4 : fromHexNat (((hexOfBytes bs).val.drop 8320).take 10) ≠
      fromHexNat "C4D9F240C8".toList)
    (hok : dumpHeaderData bs2 = .ok rec) :
    dumpHeaderData bs = .error .notAHeader ∧
    (rec.dumpType = "SAD".toList ↔ rec.cond = none) :=
  ⟨dumpHeaderData_notAHeader bs h1 h2 h3 h4,
   (dumpHeaderData_ok_shape bs2 rec hok).1⟩

set_option maxRecDepth 10000 in
/-- C5 witness: 4161 zero bytes miss the signature in both windows and
fail with `NotAHeader`; `sadDumpBytes` decodes to the complete
`sadDumpRec` with the conditional block omitted (dump type `SAD`). -/
theorem dump_header_all_or_nothing_witness :
    dumpHeaderData (List.replicate 4161 0) = .error .notAHeader ∧
    (sadDumpRec.dumpType = "SAD".toList ↔ sadDumpRec.cond = none) :=
  dump_header_all_or_nothing (List.replicate 4161 0) sadDumpBytes sadDumpRec
    (by rw [hexOfBytes_replicate_zero]; decide)
    (by rw [hexOfBytes_replicate_zero]; decide)
    (by rw [hexOfBytes_replicate_zero,
      show 2 * 4161 = 8320 + 2 from rfl, drop_replicate_char]; decide)
    (by rw [hexOfBytes_replicate_zero,
      show 2 * 4161 = 8320 + 2 from rfl, drop_replicate_char]; decide)
    (by decide)

set_option maxRecDepth 10000 in
/-- C6 (counterexample): `svcdDumpBytes` decodes successfully as a
non-`SAD` dump whose trimmed remote sysname is empty (the window is
past the source, and the `remote_sysname` key is deleted), yet the
remote flag is `True`, not `False`: the code computes only
`remote_sysname != sysname` with no non-emptiness conjunct. -/
theorem dump_remote_flag_cex :
    dumpHeaderData svcdDumpBytes = .ok svcdDumpRec ∧
    svcdDumpRec.dumpType ≠ "SAD".toList ∧
    rstripWs (pySlice (hexOfBytes svcdDumpBytes).toCharStr
      (some 1644) (some 1652)) = [] ∧
    svcdDumpRec.cond = some svcdDumpCond ∧
    svcdDumpCond.remoteSysname = none ∧
    svcdDumpCond.remoteDump = true := by
  exact ⟨by decide, by decide, by decide, rfl, rfl, rfl⟩

/-- C6 (amended): for every successfully decoded non-`SAD` header, the
remote flag equals `remote_sysname != sysname` alone — when the trimmed
remote sysname is non-empty (key present) this is the claimed
inequality, but when it is empty (key deleted) the flag equals
`sysname non-empty` rather than the claimed `False`. -/
theorem dump_remote_flag (bs : List Nat) (rec : HeaderRec) (c : CondRec)
    (hok : dumpHeaderData bs = .ok rec) (hc : rec.cond = some c) :
    (∀ r, c.remoteSysname = some r → r ≠ []) ∧
    c.remoteDump = (match c.remoteSysname with
      | some r => decide (r ≠ rec.sysname)
      | none => decide (rec.sysname ≠ [])) :=
  (dumpHeaderData_ok_shape bs rec hok).2 c hc

set_option maxRecDepth 10000 in
/-- C6 witness: the amended flag law instantiated on the decoded
`svcdDumpBytes` header (deleted remote key, `remote_dump = True`
because the sysname `SYS1` is non-empty). -/
theorem dump_remote_flag_witness :
    (∀ r, svcdDumpCond.remoteSysname = some r → r ≠ []) ∧
    svcdDumpCond.remoteDump = (match svcdDumpCond.remoteSysname with
      | some r => decide (r ≠ svcdDumpRec.sysname)
      | none => decide (svcdDumpRec.sysname ≠ [])) :=
  dump_remote_flag svcdDumpBytes svcdDumpRec svcdDumpCond (by decide) rfl
